import Mathlib

/-!
Verification of the cluster-metadata control plane implemented in
`src/clustering/administration/real_reql_cluster_interface.cc`.

The data model and the operations below are a shallow embedding of that
source file.  Helpers that the source file uses but that live in other
files of the repository (the metadata searcher, `check_metadata_status`,
`semilattice_join` on the metadata types, `deletable_t`, `versioned_t`,
and the watchable `run_until_satisfied` primitives) are modelled from the
specification, as marked on each definition.  External collaborators
(the configuration generator, the split-point computation, and the server
usage aggregation) are taken as function parameters, matching the spec's
"consumed interface" treatment.
-/

namespace RethinkMeta

/-- UUIDs are opaque identifiers; the model only needs decidable equality
and an order (std::map is ordered by key). -/
abbrev Uuid := Nat

/-- Database / table names (`name_string_t`). -/
abbrev Name := String

/-- Modelled from the spec: `versioned_t` (declared outside `src/`) pairs a
value with a version stamp; the semilattice join is last-writer-wins on the
stamp. -/
structure Versioned (α : Type) where
  ts : Nat
  value : α
deriving DecidableEq, Repr

/-- Modelled from the spec: last-writer-wins join of two versioned values;
on equal stamps the left (local) value is kept. -/
def vjoin {α : Type} (a b : Versioned α) : Versioned α :=
  if a.ts < b.ts then b else a

/-- Modelled from the spec (§3): a soft-deletable entry carries a tombstone
flag that is set by `mark_deleted` and never cleared; the record is never
physically removed. -/
structure Deletable (α : Type) where
  deleted : Bool
  value : α
deriving DecidableEq, Repr

def Deletable.mark_deleted {α : Type} (d : Deletable α) : Deletable α :=
  { d with deleted := true }

/-- Modelled from the spec: join of two deletable entries; deletion is
absorbing (a tombstone never resurrects), values join pointwise. -/
def djoinD {α : Type} (j : α → α → α) (a b : Deletable α) : Deletable α :=
  ⟨a.deleted || b.deleted, j a.value b.value⟩

/-- `database_semilattice_metadata_t`: just a versioned name. -/
structure DatabaseEntry where
  name : Versioned Name
deriving DecidableEq, Repr

/-- Shard schemes are opaque to this core (produced by the split-point
collaborator); `one_shard` is the trivial scheme used at table creation. -/
abbrev ShardScheme := Nat

def one_shard : ShardScheme := 1

/-- Per-shard replica configurations are opaque to this core (produced by
the configuration generator collaborator). -/
abbrev Cfg := Nat

/-- `table_replication_info_t`: a shard scheme plus a replica config. -/
structure TableReplicationInfo where
  shard_scheme : ShardScheme
  config : Cfg
deriving DecidableEq, Repr

/-- `namespace_semilattice_metadata_t`: versioned name, owning database id,
primary key and replication info. -/
structure TableEntry where
  name : Versioned Name
  database : Versioned Uuid
  primary_key : Versioned String
  replication_info : Versioned TableReplicationInfo
deriving DecidableEq, Repr

/-- Join of two database entries (pointwise on the single field). -/
def dbjoin (a b : DatabaseEntry) : DatabaseEntry :=
  ⟨vjoin a.name b.name⟩

/-- Join of two table entries (pointwise per field, as the semilattice join
of the metadata structs does). -/
def tbljoin (a b : TableEntry) : TableEntry :=
  ⟨vjoin a.name b.name, vjoin a.database b.database,
   vjoin a.primary_key b.primary_key,
   vjoin a.replication_info b.replication_info⟩

/-- Join on deletable database entries. -/
def dbJoinE : Deletable DatabaseEntry → Deletable DatabaseEntry → Deletable DatabaseEntry :=
  djoinD dbjoin

/-- Join on deletable table entries. -/
def nsJoinE : Deletable TableEntry → Deletable TableEntry → Deletable TableEntry :=
  djoinD tbljoin

/-- A `std::map<uuid_u, _>` is modelled as an association list sorted by
key with no duplicate keys (invariants carried as hypotheses where they
matter). -/
abbrev MMap (α : Type) := List (Uuid × α)

/-- Keys of the map are strictly increasing (the `std::map` invariant). -/
def KeysSorted {α : Type} (l : MMap α) : Prop :=
  l.Pairwise (fun a b => a.1 < b.1)

/-- `std::map::insert` of a fresh key: place the pair at its sorted
position (an already-present key is left where it is; the callers only
insert freshly generated uuids). -/
def map_insert {α : Type} (k : Uuid) (v : α) : MMap α → MMap α
  | [] => [(k, v)]
  | (k2, v2) :: t =>
    if k < k2 then (k, v) :: (k2, v2) :: t else (k2, v2) :: map_insert k v t

/-- Modelled from the spec: one step of the map semilattice join — insert
one entry, joining values when the key is already present. -/
def minsert_join {α : Type} (j : α → α → α) (k : Uuid) (v : α) : MMap α → MMap α
  | [] => [(k, v)]
  | (k2, v2) :: t =>
    if k < k2 then (k, v) :: (k2, v2) :: t
    else if k == k2 then (k2, j v2 v) :: t
    else (k2, v2) :: minsert_join j k v t

/-- Modelled from the spec: `semilattice_join` on a keyed map — the union
of the two maps, joining the values of shared keys. -/
def mjoin {α : Type} (j : α → α → α) (l1 l2 : MMap α) : MMap α :=
  l2.foldl (fun acc p => minsert_join j p.1 p.2 acc) l1

/-- The databases sub-lattice (`databases_semilattice_metadata_t`). -/
abbrev DbMap := MMap (Deletable DatabaseEntry)

/-- The namespaces (tables) sub-lattice
(`namespaces_semilattice_metadata_t`). -/
abbrev NsMap := MMap (Deletable TableEntry)

/-- Join on the databases sub-lattice. -/
def dbMapJoin : DbMap → DbMap → DbMap := mjoin dbJoinE

/-- Join on the namespaces sub-lattice. -/
def nsMapJoin : NsMap → NsMap → NsMap := mjoin nsJoinE

/-- `cluster_semilattice_metadata_t`: the root snapshot holding the two
sub-lattices. -/
structure ClusterMetadata where
  rdb_namespaces : NsMap
  databases : DbMap
deriving DecidableEq, Repr

/-- Join on root snapshots: the two sub-lattices join independently. -/
def clusterJoin (a b : ClusterMetadata) : ClusterMetadata :=
  ⟨nsMapJoin a.rdb_namespaces b.rdb_namespaces,
   dbMapJoin a.databases b.databases⟩

/-- Source lines 672-679: `is_joined(multiple, divisor)` joins the divisor
into a copy of `multiple` and tests equality with the original. -/
def is_joined {α : Type} (j : α → α → α) [DecidableEq α] (multiple divisor : α) : Bool :=
  decide (j multiple divisor = multiple)

/-- Modelled from the spec (§9): the watchable `run_until_satisfied`
primitive (declared outside `src/`) evaluates its predicate once eagerly
and then once per update of the watched value, returning at the first
satisfying state.  The trace lists the successive locally observed states;
an exhausted trace means the caller is still blocked. -/
def run_until_satisfied {α : Type} (pred : α → Bool) : List α → Option α
  | [] => none
  | s :: rest => if pred s then some s else run_until_satisfied pred rest

/-- Source lines 681-696: block until the calling thread's namespace
mirror subsumes the target's namespaces, then until its database mirror
subsumes the target's databases.  Returns the two locally observed states
at which the checks passed (`none` when a wait never completes). -/
def wait_for_metadata_to_propagate (metadata : ClusterMetadata)
    (nsTrace : List NsMap) (dbTrace : List DbMap) : Option (NsMap × DbMap) :=
  match run_until_satisfied
      (fun md => is_joined nsMapJoin md metadata.rdb_namespaces) nsTrace with
  | none => none
  | some n =>
    match run_until_satisfied
        (fun md => is_joined dbMapJoin md metadata.databases) dbTrace with
    | none => none
    | some d => some (n, d)

/-- Modelled from the spec (§4.1): outcome of `find_uniq` — no match, a
unique match, or several hits. -/
inductive SearchStatus
  | found
  | none_found
  | multiple
deriving DecidableEq, Repr

/-- Modelled from the spec (§4.1): the status of a predicate search is
determined by how many (non-deleted) entries match. -/
def search_status {α : Type} (hits : List α) : SearchStatus :=
  match hits with
  | [] => .none_found
  | [_] => .found
  | _ => .multiple

/-- The error kinds surfaced by the orchestrator (spec §7). -/
inductive MetaError
  | alreadyExists (kind qualified : String)
  | notFound (kind qualified : String)
  | multipleFound (kind qualified : String)
  | configError (msg : String)
  | fatal (msg : String)
deriving DecidableEq, Repr

/-- Modelled from the spec (§4.1): `check_metadata_status` maps a search
status and an existence expectation to an optional error. -/
def check_metadata_status (st : SearchStatus) (kind qualified : String)
    (expect_existing : Bool) : Option MetaError :=
  match st, expect_existing with
  | .found, true => none
  | .found, false => some (.alreadyExists kind qualified)
  | .none_found, true => some (.notFound kind qualified)
  | .none_found, false => none
  | .multiple, _ => some (.multipleFound kind qualified)

/-- Modelled from the spec (§4.1): the by-name database predicate; all
searcher predicates implicitly require the entry not to be deleted. -/
def db_name_pred (name : Name) (p : Uuid × Deletable DatabaseEntry) : Bool :=
  !p.2.deleted && p.2.value.name.value == name

/-- Modelled from the spec (§4.1): `namespace_predicate_t` — optional
name-equality and database-id-equality conjuncts over non-deleted table
entries. -/
def namespace_pred (name : Option Name) (db : Option Uuid)
    (p : Uuid × Deletable TableEntry) : Bool :=
  !p.2.deleted &&
    (name.all fun n => p.2.value.name.value == n) &&
    (db.all fun d => p.2.value.database.value == d)

/-- Observable effects of a mutating operation, in program order: joining
into the shared store, the propagation barrier, and a table-readiness
wait. -/
inductive Event
  | joinStore
  | waitPropagate
  | waitReady
deriving DecidableEq, Repr

/-- Source lines 62-90: `db_create` — reject the system name (a fatal
guarantee), fail if a non-deleted database already has the name, otherwise
insert a fresh entry, join it into the store and block for propagation.
The returned metadata is the store read back after the join. -/
def db_create (md : ClusterMetadata) (name : Name) (fresh : Uuid) :
    Except MetaError (ClusterMetadata × List Event) :=
  if name == "rethinkdb" then
    .error (.fatal "system database")
  else
    match check_metadata_status
        (search_status (md.databases.filter (db_name_pred name)))
        "Database" name false with
    | some e => .error e
    | none =>
      let entry : Deletable DatabaseEntry := ⟨false, ⟨⟨0, name⟩⟩⟩
      let md1 : ClusterMetadata :=
        { md with databases := map_insert fresh entry md.databases }
      .ok (clusterJoin md md1, [.joinStore, .waitPropagate])

/-- Source lines 92-133: `db_drop` — fail unless a unique non-deleted
database has the name; mark it deleted, cascade-mark every non-deleted
table of that database, join and block for propagation. -/
def db_drop (md : ClusterMetadata) (name : Name) :
    Except MetaError (ClusterMetadata × List Event) :=
  if name == "rethinkdb" then
    .error (.fatal "system database")
  else
    let hits := md.databases.filter (db_name_pred name)
    match check_metadata_status (search_status hits) "Database" name true with
    | some e => .error e
    | none =>
      match hits with
      | [] => .error (.fatal "unreachable: found status with no match")
      | (did, _) :: _ =>
        let md1 : ClusterMetadata :=
          { rdb_namespaces := md.rdb_namespaces.map fun p =>
              (p.1, if namespace_pred none (some did) p then p.2.mark_deleted else p.2),
            databases := md.databases.map fun p =>
              (p.1, if p.1 == did then p.2.mark_deleted else p.2) }
        .ok (clusterJoin md md1, [.joinStore, .waitPropagate])

/-- Source lines 135-150: `db_list` — the names of the non-deleted
database entries of the current local snapshot (a pure read, no wait). -/
def db_list (md : ClusterMetadata) : List Name :=
  md.databases.filterMap fun p =>
    if p.2.deleted then none else some p.2.value.name.value

/-- Source lines 376-386 (non-empty branch of `get_table_ids_for_query`):
resolve each requested name in the iteration order of the requested set,
failing on the first name that does not resolve uniquely. -/
def resolve_names (md : ClusterMetadata) (dbId : Uuid) (dbName : Name) :
    List Name → Except MetaError (List (Uuid × Name))
  | [] => .ok []
  | n :: rest =>
    let hits := md.rdb_namespaces.filter (namespace_pred (some n) (some dbId))
    match check_metadata_status (search_status hits) "Table"
        (dbName ++ "." ++ n) true with
    | some e => .error e
    | none =>
      match hits with
      | [] => .error (.fatal "unreachable: found status with no match")
      | (tid, te) :: _ =>
        match resolve_names md dbId dbName rest with
        | .error e => .error e
        | .ok acc => .ok ((tid, te.value.name.value) :: acc)

/-- Source lines 355-388: `get_table_ids_for_query` — an empty requested
set means all non-deleted tables of the database; otherwise every
requested name must resolve.  The requested names are passed in the
iteration order of the `std::set` (sorted by name). -/
def get_table_ids_for_query (md : ClusterMetadata) (dbId : Uuid) (dbName : Name)
    (table_names : List Name) : Except MetaError (List (Uuid × Name)) :=
  if dbName == "rethinkdb" then
    .error (.fatal "system database")
  else if table_names.isEmpty then
    .ok (md.rdb_namespaces.filterMap fun p =>
      if namespace_pred none (some dbId) p then some (p.1, p.2.value.name.value)
      else none)
  else
    resolve_names md dbId dbName table_names

/-- Server-usage maps are opaque to this core (consumed by the
configuration generator collaborator). -/
abbrev UsageMap := List (Uuid × Nat)

/-- `table_generate_config_params_t`. -/
structure ConfigParams where
  num_shards : Nat
  num_replicas : List (Name × Nat)
  director_tag : Name
deriving DecidableEq, Repr

/-- Source lines 233-236: the hard-coded parameters used at table
creation. -/
def default_config_params : ConfigParams :=
  ⟨1, [("default", 1)], "default"⟩

/-- Source lines 222-231 and 619-630: fold the external
`calculate_server_usage` over every non-deleted table, optionally skipping
the table being reconfigured. -/
def server_usage_over (calcUsage : Cfg → UsageMap → UsageMap) (ns : NsMap)
    (excl : Option Uuid) : UsageMap :=
  ns.foldl
    (fun acc p =>
      if p.2.deleted || excl == some p.1 then acc
      else calcUsage p.2.value.replication_info.value.config acc)
    []

/-- Source lines 171-275: `table_create` — reject the system database,
fail if a non-deleted table with the same (database, name) exists, build
the one-shard scheme, aggregate server usage over all non-deleted tables,
run the configuration generator (propagating its error), insert the new
entry, join, block for propagation, run the inner `table_wait` for writes
readiness whose outcome `wait_res` is discarded (source lines 266-271),
and block for propagation again. -/
def table_create (calcUsage : Cfg → UsageMap → UsageMap)
    (genConfig : UsageMap → ConfigParams → ShardScheme → Except MetaError Cfg)
    (md : ClusterMetadata) (dbId : Uuid) (dbName : Name)
    (name : Name) (primary_key : String) (fresh : Uuid)
    (wait_res : Except String Unit) :
    Except MetaError (ClusterMetadata × List Event) :=
  if dbName == "rethinkdb" then
    .error (.fatal "system database")
  else
    match check_metadata_status
        (search_status
          (md.rdb_namespaces.filter (namespace_pred (some name) (some dbId))))
        "Table" (dbName ++ "." ++ name) false with
    | some e => .error e
    | none =>
      let usage := server_usage_over calcUsage md.rdb_namespaces none
      match genConfig usage default_config_params one_shard with
      | .error e => .error e
      | .ok cfg =>
        let entry : TableEntry :=
          ⟨⟨0, name⟩, ⟨0, dbId⟩, ⟨0, primary_key⟩, ⟨0, ⟨one_shard, cfg⟩⟩⟩
        let md1 : ClusterMetadata :=
          { md with rdb_namespaces := map_insert fresh ⟨false, entry⟩ md.rdb_namespaces }
        let _ := wait_res
        .ok (clusterJoin md md1,
             [.joinStore, .waitPropagate, .waitReady, .waitPropagate])

/-- Source line 662: `versioned_t::set` — replace the value under a fresh,
strictly newer version stamp. -/
def set_replication (e : Deletable TableEntry) (v : TableReplicationInfo) :
    Deletable TableEntry :=
  { e with value :=
      { e.value with replication_info := ⟨e.value.replication_info.ts + 1, v⟩ } }

/-- Source lines 594-670: `table_reconfigure` — resolve the table,
aggregate server usage excluding it, compute the new shard scheme via the
split-point collaborator and the new replica config via the configuration
generator (propagating their errors), commit by joining only when not a
dry run, and return the computed config in both cases.  No readiness wait
is performed. -/
def table_reconfigure (calcUsage : Cfg → UsageMap → UsageMap)
    (splitPoints : Uuid → Nat → ShardScheme → Except MetaError ShardScheme)
    (genConfig : Uuid → UsageMap → ConfigParams → ShardScheme → Except MetaError Cfg)
    (md : ClusterMetadata) (dbId : Uuid) (dbName : Name)
    (name : Name) (params : ConfigParams) (dry_run : Bool) :
    Except MetaError (ClusterMetadata × Cfg × List Event) :=
  if dbName == "rethinkdb" then
    .error (.fatal "system database")
  else
    let hits := md.rdb_namespaces.filter (namespace_pred (some name) (some dbId))
    match check_metadata_status (search_status hits) "Table"
        (dbName ++ "." ++ name) true with
    | some e => .error e
    | none =>
      match hits with
      | [] => .error (.fatal "unreachable: found status with no match")
      | (tid, te) :: _ =>
        let usage := server_usage_over calcUsage md.rdb_namespaces (some tid)
        match splitPoints tid params.num_shards
            te.value.replication_info.value.shard_scheme with
        | .error e => .error e
        | .ok scheme =>
          match genConfig tid usage params scheme with
          | .error e => .error e
          | .ok cfg =>
            if dry_run then
              .ok (md, cfg, [])
            else
              let md1 : ClusterMetadata :=
                { md with rdb_namespaces := md.rdb_namespaces.map fun p =>
                    (p.1, if p.1 == tid then set_replication p.2 ⟨scheme, cfg⟩
                          else p.2) }
              .ok (clusterJoin md md1, cfg, [.joinStore])

/-- `table_readiness_t`: the ordinal readiness levels. -/
inductive Readiness
  | unready
  | writes
  | reads
  | finished
deriving DecidableEq, Repr

/-- The ordinal of a readiness level, used for the `>=` comparison. -/
def Readiness.toNat : Readiness → Nat
  | .unready => 0
  | .writes => 1
  | .reads => 2
  | .finished => 3

/-- `table_waiter_t::waited_t`. -/
inductive WaitedT
  | waited
  | immediate
deriving DecidableEq, Repr

/-- What the status backend reports for a table at one observation:
`none` means "no such table" (deleted), otherwise its readiness. -/
abbrev Status := Option Readiness

/-- A trace of successive status observations for one table: the first is
the eager pre-subscription check, each later one follows a directory
change notification. -/
abbrev DirTrace := List Status

/-- Source lines 480-491: `table_waiter_t::do_check` — when the status
source reports no readiness the waiter records the table as deleted and
the check is satisfied; otherwise the check compares the actual readiness
with the target.  Returns (new deleted flag, check result). -/
def do_check (deleted : Bool) (status : Status) (wait_readiness : Readiness) :
    Bool × Bool :=
  match status with
  | none => (true, true)
  | some r => (deleted, decide (wait_readiness.toNat ≤ r.toNat))

/-- Source lines 459-469 with the check counter threaded explicitly:
run the checks along the trace, returning the total number of checks and
the final deleted flag at the first satisfied check. -/
def wait_ready_from (wait_readiness : Readiness) :
    Bool → Nat → DirTrace → Option (Nat × Bool)
  | _, _, [] => none
  | d, n, s :: rest =>
    let res := do_check d s wait_readiness
    if res.2 then some (n + 1, res.1)
    else wait_ready_from wait_readiness res.1 (n + 1) rest

/-- Source lines 459-469: `table_waiter_t::wait_ready` — run the predicate
over the directory change stream until satisfied; `IMMEDIATE` exactly when
only one check was needed (`num_checks > 1` means `WAITED`). -/
def wait_ready (wait_readiness : Readiness) (deleted : Bool) (tr : DirTrace) :
    Option (WaitedT × Bool) :=
  (wait_ready_from wait_readiness deleted 0 tr).map fun p =>
    (if p.1 > 1 then WaitedT.waited else WaitedT.immediate, p.2)

/-- Source lines 471-473: `table_waiter_t::check_ready` — a synchronous
single check against the latest status. -/
def check_ready (deleted : Bool) (status : Status) (wait_readiness : Readiness) :
    Bool × Bool :=
  do_check deleted status wait_readiness

/-- Source lines 550-554: one pass waiting on every table individually;
each pair carries the waiter's deleted flag and that table's status trace.
`none` when some individual wait never completes. -/
def round_waits (wait_readiness : Readiness) :
    List (Bool × DirTrace) → Option (List (WaitedT × Bool))
  | [] => some []
  | (d, tr) :: rest =>
    match wait_ready wait_readiness d tr with
    | none => none
    | some r =>
      match round_waits wait_readiness rest with
      | none => none
      | some rs => some (r :: rs)

/-- Source lines 556-565: the synchronous re-check pass over all tables,
stopping at the first table that is not ready (the `break`); returns
whether every table passed and the updated deleted flags (flags after the
break point are untouched). -/
def recheck_pass (wait_readiness : Readiness) :
    List (Bool × Status) → Bool × List Bool
  | [] => (true, [])
  | (d, s) :: rest =>
    let r := do_check d s wait_readiness
    if r.2 then
      let (ok, fs) := recheck_pass wait_readiness rest
      (ok, r.1 :: fs)
    else
      (false, r.1 :: rest.map Prod.fst)

/-- True when at least one individual wait actually suspended (the
negation of the loop's `immediate` conjunction). -/
def any_waited (results : List (WaitedT × Bool)) : Bool :=
  results.any fun r => r.1 == WaitedT.waited

/-- Source lines 548-571: the multi-table wait loop of `table_wait`.
Each round provides one status trace per table for the individual waits
and one status per table for the potential re-check pass.  Returns the
index of the successful round and the final deleted flags; `none` when
the loop never succeeds within the provided rounds. -/
def table_wait_loop (wait_readiness : Readiness) (nTables : Nat) :
    List Bool → List (List DirTrace × List Status) → Option (Nat × List Bool)
  | _, [] => none
  | flags, (traces, rechecks) :: rest =>
    match round_waits wait_readiness (flags.zip traces) with
    | none => none
    | some results =>
      if any_waited results && decide (1 < nTables) then
        match recheck_pass wait_readiness ((results.map Prod.snd).zip rechecks) with
        | (true, flags2) => some (0, flags2)
        | (false, flags2) =>
          match table_wait_loop wait_readiness nTables flags2 rest with
          | none => none
          | some (i, f) => some (i + 1, f)
      else
        some (0, results.map Prod.snd)

/-- A status observation that satisfies the waiter: the table is gone, or
its readiness has reached the target. -/
def status_satisfies (wait_readiness : Readiness) (s : Status) : Prop :=
  s = none ∨ ∃ r, s = some r ∧ wait_readiness.toNat ≤ r.toNat

/-- An administrative operation on databases, used to state the db_list
round-trip property. -/
inductive DbOp
  | create (n : Name)
  | drop (n : Name)
deriving DecidableEq, Repr

/-- Run a sequence of operations against the store; the counter supplies
the freshly generated uuids; the run aborts (`none`) as soon as one
operation fails. -/
def run_ops : List DbOp → ClusterMetadata → Nat → Option ClusterMetadata
  | [], md, _ => some md
  | DbOp.create n :: ops, md, c =>
    match db_create md n c with
    | .ok (md1, _) => run_ops ops md1 (c + 1)
    | .error _ => none
  | DbOp.drop n :: ops, md, c =>
    match db_drop md n with
    | .ok (md1, _) => run_ops ops md1 c
    | .error _ => none

/-- The names a listing should show after a sequence of operations:
exactly the created-and-not-subsequently-dropped names. -/
def expected_names : List DbOp → List Name → List Name
  | [], acc => acc
  | DbOp.create n :: ops, acc => expected_names ops (n :: acc)
  | DbOp.drop n :: ops, acc => expected_names ops (acc.filter fun m => m != n)

/-- The store invariants the sequential runs maintain: both maps are
sorted by key, non-deleted database names are unique, and every key is
below the fresh-uuid counter. -/
def DbInv (md : ClusterMetadata) (c : Nat) : Prop :=
  KeysSorted md.rdb_namespaces ∧ KeysSorted md.databases ∧
  (∀ n, (md.databases.filter (db_name_pred n)).length ≤ 1) ∧
  (∀ p ∈ md.databases, p.1 < c)

/-- A requested table name resolves when some non-deleted table of the
database carries it. -/
def table_resolvable (md : ClusterMetadata) (dbId : Uuid) (n : Name) : Bool :=
  !(md.rdb_namespaces.filter (namespace_pred (some n) (some dbId))).isEmpty

/-- Follows the claim's words, not the source: "the first missing one in
id-array order" — among the requested names that do not resolve, the one
whose metadata entry (deleted entries included) has the smallest id.
Stated only to compare the claim's ordering with the one the source
actually uses. -/
def first_missing_by_id_order (md : ClusterMetadata) (dbId : Uuid)
    (names : List Name) : Option Name :=
  let missing := names.filter fun n => !(table_resolvable md dbId n)
  let withIds := missing.filterMap fun n =>
    ((md.rdb_namespaces.filter fun p =>
        p.2.value.name.value == n && p.2.value.database.value == dbId).head?).map
      fun q => (q.1, n)
  (withIds.foldl (fun acc q =>
    match acc with
    | none => some q
    | some r => if q.1 < r.1 then some q else some r) none).map Prod.snd

/-! ## General lemmas about the embedded primitives -/

theorem run_until_satisfied_sound {α : Type} (pred : α → Bool) :
    ∀ (l : List α) (a : α), run_until_satisfied pred l = some a →
      pred a = true ∧ a ∈ l := by
  intro l
  induction l with
  | nil => intro a h; simp [run_until_satisfied] at h
  | cons s rest ih =>
    intro a h
    by_cases hp : pred s = true
    · simp [run_until_satisfied, hp] at h
      subst h
      exact ⟨hp, List.mem_cons_self _ _⟩
    · simp [run_until_satisfied, hp] at h
      rcases ih a h with ⟨h1, h2⟩
      exact ⟨h1, List.mem_cons_of_mem _ h2⟩

theorem vjoin_self {α : Type} (a : Versioned α) : vjoin a a = a := by
  simp [vjoin]

theorem dbjoin_self (a : DatabaseEntry) : dbjoin a a = a := by
  simp [dbjoin, vjoin_self]

theorem tbljoin_self (a : TableEntry) : tbljoin a a = a := by
  simp [tbljoin, vjoin_self]

theorem dbJoinE_self (e : Deletable DatabaseEntry) : dbJoinE e e = e := by
  simp [dbJoinE, djoinD, dbjoin_self]

theorem nsJoinE_self (e : Deletable TableEntry) : nsJoinE e e = e := by
  simp [nsJoinE, djoinD, tbljoin_self]

theorem dbJoinE_mark (e : Deletable DatabaseEntry) :
    dbJoinE e e.mark_deleted = e.mark_deleted := by
  simp [dbJoinE, djoinD, Deletable.mark_deleted, dbjoin_self]

theorem nsJoinE_mark (e : Deletable TableEntry) :
    nsJoinE e e.mark_deleted = e.mark_deleted := by
  simp [nsJoinE, djoinD, Deletable.mark_deleted, tbljoin_self]

theorem nsJoinE_set_replication (e : Deletable TableEntry) (v : TableReplicationInfo) :
    nsJoinE e (set_replication e v) = set_replication e v := by
  simp [nsJoinE, djoinD, set_replication, tbljoin, vjoin_self, vjoin,
        Nat.lt_succ_self]

theorem minsert_join_max {α : Type} (j : α → α → α) (k : Uuid) (v : α) :
    ∀ (l : MMap α), (∀ q ∈ l, q.1 < k) →
      minsert_join j k v l = l ++ [(k, v)] := by
  intro l
  induction l with
  | nil => intro _; rfl
  | cons q t ih =>
    intro h
    have hq : q.1 < k := h q (List.mem_cons_self _ _)
    have h1 : ¬ k < q.1 := Nat.not_lt.mpr (Nat.le_of_lt hq)
    have h2 : (k == q.1) = false := by
      simp only [beq_eq_false_iff_ne, ne_eq]
      exact fun he => Nat.lt_irrefl k (he ▸ hq)
    simp [minsert_join, h1, h2]
    exact ih (fun q' hq' => h q' (List.mem_cons_of_mem _ hq'))

theorem minsert_join_found {α : Type} (j : α → α → α) (k : Uuid) (w v : α)
    (l2 : MMap α) :
    ∀ (l1 : MMap α), (∀ q ∈ l1, q.1 < k) →
      minsert_join j k w (l1 ++ (k, v) :: l2) = l1 ++ (k, j v w) :: l2 := by
  intro l1
  induction l1 with
  | nil =>
    intro _
    simp only [List.nil_append]
    simp [minsert_join]
  | cons q t ih =>
    intro h
    have hq : q.1 < k := h q (List.mem_cons_self _ _)
    have h1 : ¬ k < q.1 := Nat.not_lt.mpr (Nat.le_of_lt hq)
    have h2 : (k == q.1) = false := by
      simp only [beq_eq_false_iff_ne, ne_eq]
      exact fun he => Nat.lt_irrefl k (he ▸ hq)
    simp [minsert_join, h1, h2]
    exact ih (fun q' hq' => h q' (List.mem_cons_of_mem _ hq'))

theorem keysSorted_replace_middle {α : Type} (pre t : MMap α) (k : Uuid) (v w : α)
    (h : KeysSorted (pre ++ (k, v) :: t)) : KeysSorted (pre ++ (k, w) :: t) := by
  unfold KeysSorted at h ⊢
  rw [List.pairwise_append] at h ⊢
  rcases h with ⟨h1, h2, h3⟩
  refine ⟨h1, ?_, ?_⟩
  · rw [List.pairwise_cons] at h2 ⊢
    exact ⟨fun b hb => h2.1 b hb, h2.2⟩
  · intro a ha b hb
    rcases List.mem_cons.mp hb with hb | hb
    · subst hb
      exact h3 a ha (k, v) (List.mem_cons_self _ _)
    · exact h3 a ha b (List.mem_cons_of_mem _ hb)

theorem mjoin_map_aux {α : Type} (j : α → α → α) (g : Uuid × α → α) :
    ∀ (l pre : MMap α), KeysSorted (pre ++ l) →
      (∀ p ∈ l, j p.2 (g p) = g p) →
      (l.map fun p => (p.1, g p)).foldl
          (fun acc q => minsert_join j q.1 q.2 acc) (pre ++ l)
        = pre ++ l.map fun p => (p.1, g p) := by
  intro l
  induction l with
  | nil => intro pre _ _; simp
  | cons p t ih =>
    intro pre hs habs
    have hpre : ∀ q ∈ pre, q.1 < p.1 := by
      unfold KeysSorted at hs
      rw [List.pairwise_append] at hs
      exact fun q hq => hs.2.2 q hq p (List.mem_cons_self _ _)
    have hfound := minsert_join_found j p.1 (g p) p.2 t pre hpre
    have hvv : (p.1, p.2) = p := rfl
    rw [hvv] at hfound
    have habs1 : j p.2 (g p) = g p := habs p (List.mem_cons_self _ _)
    rw [habs1] at hfound
    have hs' : KeysSorted (pre ++ (p.1, g p) :: t) := by
      have := keysSorted_replace_middle pre t p.1 p.2 (g p)
      rw [hvv] at this
      exact this hs
    have hs'' : KeysSorted ((pre ++ [(p.1, g p)]) ++ t) := by
      rw [List.append_assoc]
      exact hs'
    have ihres := ih (pre ++ [(p.1, g p)]) hs''
        (fun q hq => habs q (List.mem_cons_of_mem _ hq))
    simp only [List.map_cons, List.foldl_cons]
    rw [hfound]
    have harr : pre ++ (p.1, g p) :: t = (pre ++ [(p.1, g p)]) ++ t := by
      rw [List.append_assoc]; rfl
    rw [harr, ihres, List.append_assoc]
    rfl

theorem mjoin_map {α : Type} (j : α → α → α) (g : Uuid × α → α) (l : MMap α)
    (hs : KeysSorted l) (habs : ∀ p ∈ l, j p.2 (g p) = g p) :
    mjoin j l (l.map fun p => (p.1, g p)) = l.map fun p => (p.1, g p) := by
  have := mjoin_map_aux j g l [] (by simpa using hs) habs
  simpa [mjoin] using this

theorem mjoin_self {α : Type} (j : α → α → α) (l : MMap α)
    (hs : KeysSorted l) (hid : ∀ p ∈ l, j p.2 p.2 = p.2) :
    mjoin j l l = l := by
  have := mjoin_map j (fun p => p.2) l hs hid
  simpa using this

theorem mjoin_append_fresh {α : Type} (j : α → α → α) (l : MMap α) (k : Uuid) (v : α)
    (hs : KeysSorted l) (hid : ∀ p ∈ l, j p.2 p.2 = p.2)
    (hk : ∀ q ∈ l, q.1 < k) :
    mjoin j l (l ++ [(k, v)]) = l ++ [(k, v)] := by
  unfold mjoin
  rw [List.foldl_append]
  have h1 : List.foldl (fun acc p => minsert_join j p.1 p.2 acc) l l = l :=
    mjoin_self j l hs hid
  rw [h1]
  simp only [List.foldl_cons, List.foldl_nil]
  exact minsert_join_max j k v l hk

theorem wait_ready_from_pos (t : Readiness) :
    ∀ (tr : DirTrace) (d : Bool) (n m : Nat) (d' : Bool),
      wait_ready_from t d n tr = some (m, d') → n < m := by
  intro tr
  induction tr with
  | nil => intro d n m d' h; simp [wait_ready_from] at h
  | cons s rest ih =>
    intro d n m d' h
    by_cases hc : (do_check d s t).2 = true
    · simp [wait_ready_from, hc] at h
      omega
    · simp only [Bool.not_eq_true] at hc
      simp [wait_ready_from, hc] at h
      have := ih (do_check d s t).1 (n + 1) m d' h
      omega

theorem wait_ready_from_sat (t : Readiness) :
    ∀ (tr : DirTrace) (d : Bool) (n m : Nat) (d' : Bool),
      wait_ready_from t d n tr = some (m, d') →
      ∃ s ∈ tr, (s = none ∧ d' = true) ∨
        ∃ r, s = some r ∧ t.toNat ≤ r.toNat := by
  intro tr
  induction tr with
  | nil => intro d n m d' h; simp [wait_ready_from] at h
  | cons s rest ih =>
    intro d n m d' h
    by_cases hc : (do_check d s t).2 = true
    · simp [wait_ready_from, hc] at h
      refine ⟨s, List.mem_cons_self _ _, ?_⟩
      cases s with
      | none =>
        left
        refine ⟨rfl, ?_⟩
        have hd : (do_check d none t).1 = true := by simp [do_check]
        rw [← h.2, hd]
      | some r =>
        right
        refine ⟨r, rfl, ?_⟩
        simpa [do_check] using hc
    · simp only [Bool.not_eq_true] at hc
      simp [wait_ready_from, hc] at h
      rcases ih (do_check d s t).1 (n + 1) m d' h with ⟨s', hs', hsat⟩
      exact ⟨s', List.mem_cons_of_mem _ hs', hsat⟩

theorem wait_ready_sat (t : Readiness) (d : Bool) (tr : DirTrace)
    (w : WaitedT) (d' : Bool) (h : wait_ready t d tr = some (w, d')) :
    ∃ s ∈ tr, status_satisfies t s := by
  unfold wait_ready at h
  cases hr : wait_ready_from t d 0 tr with
  | none => rw [hr] at h; simp at h
  | some p =>
    rcases wait_ready_from_sat t tr d 0 p.1 p.2 hr with ⟨s, hs, hsat⟩
    refine ⟨s, hs, ?_⟩
    rcases hsat with ⟨h1, _⟩ | ⟨r, h1, h2⟩
    · exact Or.inl h1
    · exact Or.inr ⟨r, h1, h2⟩

theorem round_waits_sat (t : Readiness) :
    ∀ (l : List (Bool × DirTrace)) (results : List (WaitedT × Bool)),
      round_waits t l = some results →
      ∀ p ∈ l, ∃ s ∈ p.2, status_satisfies t s := by
  intro l
  induction l with
  | nil => intro results _ p hp; simp at hp
  | cons q rest ih =>
    intro results h p hp
    obtain ⟨d, tr⟩ := q
    simp only [round_waits] at h
    cases hw : wait_ready t d tr with
    | none => rw [hw] at h; simp at h
    | some r =>
      rw [hw] at h
      cases hrest : round_waits t rest with
      | none => rw [hrest] at h; simp at h
      | some rs =>
        rw [hrest] at h
        rcases List.mem_cons.mp hp with hp | hp
        · subst hp
          exact wait_ready_sat t d tr r.1 r.2 (by simpa using hw)
        · exact ih rs hrest p hp

theorem recheck_pass_true (t : Readiness) :
    ∀ (l : List (Bool × Status)) (f : List Bool),
      recheck_pass t l = (true, f) →
      ∀ p ∈ l, status_satisfies t p.2 := by
  intro l
  induction l with
  | nil => intro f _ p hp; simp at hp
  | cons q rest ih =>
    intro f h p hp
    obtain ⟨d, s⟩ := q
    by_cases hc : (do_check d s t).2 = true
    · simp only [recheck_pass, hc, if_true] at h
      rcases List.mem_cons.mp hp with hp | hp
      · subst hp
        cases s with
        | none => exact Or.inl rfl
        | some r =>
          right
          refine ⟨r, rfl, ?_⟩
          simpa [do_check] using hc
      · have h1 : (recheck_pass t rest).1 = true := by
          have := congrArg Prod.fst h
          simpa using this
        have h2 : recheck_pass t rest = (true, (recheck_pass t rest).2) := by
          rw [← h1]
        exact ih (recheck_pass t rest).2 h2 p hp
    · simp only [Bool.not_eq_true] at hc
      simp [recheck_pass, hc] at h

theorem map_insert_max {α : Type} (k : Uuid) (v : α) :
    ∀ (l : MMap α), (∀ q ∈ l, q.1 < k) → map_insert k v l = l ++ [(k, v)] := by
  intro l
  induction l with
  | nil => intro _; rfl
  | cons q t ih =>
    intro h
    have hq : q.1 < k := h q (List.mem_cons_self _ _)
    have h1 : ¬ k < q.1 := Nat.not_lt.mpr (Nat.le_of_lt hq)
    simp only [map_insert, if_neg h1, List.cons_append, List.cons.injEq, true_and]
    exact ih (fun q' hq' => h q' (List.mem_cons_of_mem _ hq'))

theorem db_create_ok (md : ClusterMetadata) (name : Name) (fresh : Uuid)
    (hname : (name == "rethinkdb") = false)
    (hnone : md.databases.filter (db_name_pred name) = [])
    (hsns : KeysSorted md.rdb_namespaces)
    (hsdb : KeysSorted md.databases)
    (hfresh : ∀ p ∈ md.databases, p.1 < fresh) :
    db_create md name fresh =
      .ok (⟨md.rdb_namespaces,
            md.databases ++ [(fresh, ⟨false, ⟨⟨0, name⟩⟩⟩)]⟩,
           [Event.joinStore, Event.waitPropagate]) := by
  have h1 : nsMapJoin md.rdb_namespaces md.rdb_namespaces = md.rdb_namespaces :=
    mjoin_self nsJoinE md.rdb_namespaces hsns (fun p _ => nsJoinE_self p.2)
  have h2 : map_insert fresh (⟨false, ⟨⟨0, name⟩⟩⟩ : Deletable DatabaseEntry)
      md.databases = md.databases ++ [(fresh, ⟨false, ⟨⟨0, name⟩⟩⟩)] :=
    map_insert_max fresh _ md.databases hfresh
  have h3 : dbMapJoin md.databases
      (md.databases ++ [(fresh, ⟨false, ⟨⟨0, name⟩⟩⟩)])
      = md.databases ++ [(fresh, ⟨false, ⟨⟨0, name⟩⟩⟩)] :=
    mjoin_append_fresh dbJoinE md.databases fresh _ hsdb
      (fun p _ => dbJoinE_self p.2) hfresh
  unfold db_create
  rw [hname, hnone]
  simp only [Bool.false_eq_true, if_false, search_status, check_metadata_status,
    clusterJoin, h1, h2, h3]

theorem db_create_already_exists (md : ClusterMetadata) (name : Name)
    (fresh did : Uuid) (e : Deletable DatabaseEntry)
    (hname : (name == "rethinkdb") = false)
    (hone : md.databases.filter (db_name_pred name) = [(did, e)]) :
    db_create md name fresh = .error (.alreadyExists "Database" name) := by
  unfold db_create
  rw [hname, hone]
  simp [search_status, check_metadata_status]

theorem db_drop_not_found (md : ClusterMetadata) (name : Name)
    (hname : (name == "rethinkdb") = false)
    (hnil : md.databases.filter (db_name_pred name) = []) :
    db_drop md name = .error (.notFound "Database" name) := by
  unfold db_drop
  rw [hname, hnil]
  simp [search_status, check_metadata_status]

theorem db_drop_ok (md : ClusterMetadata) (name : Name) (did : Uuid)
    (e : Deletable DatabaseEntry)
    (hname : (name == "rethinkdb") = false)
    (hone : md.databases.filter (db_name_pred name) = [(did, e)])
    (hsns : KeysSorted md.rdb_namespaces)
    (hsdb : KeysSorted md.databases) :
    db_drop md name =
      .ok (⟨md.rdb_namespaces.map fun p =>
              (p.1, if namespace_pred none (some did) p then p.2.mark_deleted
                    else p.2),
            md.databases.map fun p =>
              (p.1, if p.1 == did then p.2.mark_deleted else p.2)⟩,
           [Event.joinStore, Event.waitPropagate]) := by
  have habs_db : ∀ p ∈ md.databases,
      dbJoinE p.2 (if p.1 == did then p.2.mark_deleted else p.2)
        = (if p.1 == did then p.2.mark_deleted else p.2) := by
    intro p _
    by_cases h : (p.1 == did) = true
    · simp [h, dbJoinE_mark]
    · simp only [Bool.not_eq_true] at h
      simp [h, dbJoinE_self]
  have habs_ns : ∀ p ∈ md.rdb_namespaces,
      nsJoinE p.2
          (if namespace_pred none (some did) p then p.2.mark_deleted else p.2)
        = (if namespace_pred none (some did) p then p.2.mark_deleted else p.2) := by
    intro p _
    by_cases h : namespace_pred none (some did) p = true
    · simp [h, nsJoinE_mark]
    · simp only [Bool.not_eq_true] at h
      simp [h, nsJoinE_self]
  have h1 := mjoin_map nsJoinE
    (fun p => if namespace_pred none (some did) p then p.2.mark_deleted else p.2)
    md.rdb_namespaces hsns habs_ns
  have h2 := mjoin_map dbJoinE
    (fun p => if p.1 == did then p.2.mark_deleted else p.2)
    md.databases hsdb habs_db
  unfold db_drop
  rw [hname, hone]
  simp only [Bool.false_eq_true, if_false, search_status, check_metadata_status,
    clusterJoin, nsMapJoin, dbMapJoin]
  rw [h1, h2]

theorem keysSorted_append_single {α : Type} (l : MMap α) (k : Uuid) (v : α)
    (hs : KeysSorted l) (hk : ∀ p ∈ l, p.1 < k) : KeysSorted (l ++ [(k, v)]) := by
  unfold KeysSorted at hs ⊢
  rw [List.pairwise_append]
  refine ⟨hs, List.pairwise_singleton _ _, ?_⟩
  intro a ha b hb
  rcases List.mem_singleton.mp hb with rfl
  exact hk a ha

theorem keysSorted_map {α : Type} (l : MMap α) (g : Uuid × α → α)
    (hs : KeysSorted l) : KeysSorted (l.map fun p => (p.1, g p)) := by
  unfold KeysSorted at hs ⊢
  rw [List.pairwise_map]
  exact hs

theorem keysSorted_eq_of_fst_eq {α : Type} :
    ∀ (l : MMap α), KeysSorted l →
      ∀ (p q : Uuid × α), p ∈ l → q ∈ l → p.1 = q.1 → p = q := by
  intro l
  induction l with
  | nil => intro _ p q hp; simp at hp
  | cons a t ih =>
    intro hs p q hp hq h
    have hs' := List.pairwise_cons.mp hs
    rcases List.mem_cons.mp hp with hp | hp <;>
      rcases List.mem_cons.mp hq with hq | hq
    · rw [hp, hq]
    · exact absurd h (by rw [hp]; exact Nat.ne_of_lt (hs'.1 q hq))
    · exact absurd h.symm (by rw [hq]; exact Nat.ne_of_lt (hs'.1 p hp))
    · exact ih hs'.2 p q hp hq h

theorem length_filter_map_le {α β : Type} (pred : β → Bool) (fn : α → β)
    (pred2 : α → Bool) (hmono : ∀ p, pred (fn p) = true → pred2 p = true) :
    ∀ l : List α, ((l.map fn).filter pred).length ≤ (l.filter pred2).length := by
  intro l
  induction l with
  | nil => simp
  | cons p t ih =>
    simp only [List.map_cons, List.filter_cons]
    by_cases h : pred (fn p) = true
    · rw [if_pos h, if_pos (hmono p h)]
      simpa using ih
    · simp only [Bool.not_eq_true] at h
      rw [h]
      simp only [Bool.false_eq_true, if_false]
      by_cases h2 : pred2 p = true
      · rw [if_pos h2]
        simp only [List.length_cons]
        omega
      · simp only [Bool.not_eq_true] at h2
        rw [h2]
        simpa using ih

theorem db_list_mem (md : ClusterMetadata) (n : Name) :
    n ∈ db_list md ↔
      ∃ p ∈ md.databases, p.2.deleted = false ∧ p.2.value.name.value = n := by
  unfold db_list
  rw [List.mem_filterMap]
  constructor
  · intro ⟨p, hp, hv⟩
    by_cases hd : p.2.deleted = true
    · rw [if_pos hd] at hv
      exact absurd hv (by simp)
    · simp only [Bool.not_eq_true] at hd
      rw [hd] at hv
      simp only [Bool.false_eq_true, if_false, Option.some.injEq] at hv
      exact ⟨p, hp, hd, hv⟩
  · intro ⟨p, hp, hd, hv⟩
    refine ⟨p, hp, ?_⟩
    rw [hd]
    simp [hv]

theorem db_list_after_create (md : ClusterMetadata) (n : Name) (c : Uuid)
    (m : Name) :
    (m ∈ db_list ⟨md.rdb_namespaces,
        md.databases ++ [(c, ⟨false, ⟨⟨0, n⟩⟩⟩)]⟩) ↔
      (m ∈ db_list md ∨ m = n) := by
  unfold db_list
  simp only [List.filterMap_append, List.mem_append]
  constructor
  · intro h
    rcases h with h | h
    · exact Or.inl h
    · simp at h
      exact Or.inr h
  · intro h
    rcases h with h | h
    · exact Or.inl h
    · right
      simp [h]

theorem db_list_after_drop (md : ClusterMetadata) (ns2 : NsMap) (n : Name)
    (did : Uuid) (e : Deletable DatabaseEntry)
    (hsdb : KeysSorted md.databases)
    (hone : md.databases.filter (db_name_pred n) = [(did, e)]) (m : Name) :
    (m ∈ db_list ⟨ns2, md.databases.map fun p =>
        (p.1, if p.1 == did then p.2.mark_deleted else p.2)⟩) ↔
      (m ∈ db_list md ∧ m ≠ n) := by
  have hde : (did, e) ∈ md.databases ∧ db_name_pred n (did, e) = true := by
    have : (did, e) ∈ md.databases.filter (db_name_pred n) := by
      rw [hone]; exact List.mem_cons_self _ _
    exact ⟨(List.mem_filter.mp this).1, (List.mem_filter.mp this).2⟩
  have hename : e.deleted = false ∧ e.value.name.value = n := by
    have := hde.2
    unfold db_name_pred at this
    simp only [Bool.and_eq_true, Bool.not_eq_true', beq_iff_eq] at this
    exact this
  rw [db_list_mem, db_list_mem]
  constructor
  · intro ⟨q, hq, hqd, hqn⟩
    rcases List.mem_map.mp hq with ⟨p, hp, hpq⟩
    by_cases hkey : (p.1 == did) = true
    · rw [← hpq] at hqd
      simp only [hkey, if_true] at hqd
      simp [Deletable.mark_deleted] at hqd
    · simp only [Bool.not_eq_true] at hkey
      rw [← hpq] at hqd hqn
      simp only [hkey, Bool.false_eq_true, if_false] at hqd hqn
      refine ⟨⟨p, hp, hqd, hqn⟩, ?_⟩
      intro hmn
      have hpf : p ∈ md.databases.filter (db_name_pred n) :=
        List.mem_filter.mpr ⟨hp, by
          unfold db_name_pred
          simp only [Bool.and_eq_true, Bool.not_eq_true', beq_iff_eq]
          exact ⟨hqd, by rw [hqn, hmn]⟩⟩
      rw [hone] at hpf
      rcases List.mem_singleton.mp hpf with rfl
      simp at hkey
  · intro ⟨⟨p, hp, hpd, hpn⟩, hmn⟩
    have hkey : (p.1 == did) = false := by
      by_contra hcon
      simp only [Bool.not_eq_false, beq_iff_eq] at hcon
      have := keysSorted_eq_of_fst_eq md.databases hsdb p (did, e) hp hde.1 hcon
      rw [this] at hpn
      exact hmn (hpn ▸ hename.2 ▸ rfl)
    refine ⟨(p.1, if p.1 == did then p.2.mark_deleted else p.2),
      List.mem_map.mpr ⟨p, hp, rfl⟩, ?_⟩
    simp only [hkey, Bool.false_eq_true, if_false]
    exact ⟨hpd, hpn⟩

theorem db_create_ok_inv (md : ClusterMetadata) (n : Name) (c : Uuid)
    (md1 : ClusterMetadata) (ev : List Event)
    (h : db_create md n c = .ok (md1, ev))
    (hsns : KeysSorted md.rdb_namespaces) (hsdb : KeysSorted md.databases)
    (hfresh : ∀ p ∈ md.databases, p.1 < c) :
    md.databases.filter (db_name_pred n) = [] ∧
    md1 = ⟨md.rdb_namespaces,
           md.databases ++ [(c, ⟨false, ⟨⟨0, n⟩⟩⟩)]⟩ := by
  by_cases hrn : (n == "rethinkdb") = true
  · unfold db_create at h
    rw [hrn] at h
    simp at h
  · simp only [Bool.not_eq_true] at hrn
    cases hf : md.databases.filter (db_name_pred n) with
    | nil =>
      have hok := db_create_ok md n c hrn hf hsns hsdb hfresh
      rw [hok] at h
      simp only [Except.ok.injEq, Prod.mk.injEq] at h
      exact ⟨rfl, h.1.symm⟩
    | cons q t =>
      cases t with
      | nil =>
        have := db_create_already_exists md n c q.1 q.2 hrn (by rw [hf])
        rw [this] at h
        exact absurd h (by simp)
      | cons q2 t2 =>
        unfold db_create at h
        rw [hrn, hf] at h
        simp [search_status, check_metadata_status] at h

theorem db_drop_ok_inv (md : ClusterMetadata) (n : Name)
    (md1 : ClusterMetadata) (ev : List Event)
    (h : db_drop md n = .ok (md1, ev))
    (hsns : KeysSorted md.rdb_namespaces) (hsdb : KeysSorted md.databases) :
    ∃ did e, md.databases.filter (db_name_pred n) = [(did, e)] ∧
      md1 = ⟨md.rdb_namespaces.map fun p =>
               (p.1, if namespace_pred none (some did) p then p.2.mark_deleted
                     else p.2),
             md.databases.map fun p =>
               (p.1, if p.1 == did then p.2.mark_deleted else p.2)⟩ := by
  by_cases hrn : (n == "rethinkdb") = true
  · unfold db_drop at h
    rw [hrn] at h
    simp at h
  · simp only [Bool.not_eq_true] at hrn
    cases hf : md.databases.filter (db_name_pred n) with
    | nil =>
      have := db_drop_not_found md n hrn hf
      rw [this] at h
      exact absurd h (by simp)
    | cons q t =>
      cases t with
      | nil =>
        obtain ⟨did0, e0⟩ := q
        have hok := db_drop_ok md n did0 e0 hrn hf hsns hsdb
        rw [hok] at h
        simp only [Except.ok.injEq, Prod.mk.injEq] at h
        exact ⟨did0, e0, rfl, h.1.symm⟩
      | cons q2 t2 =>
        unfold db_drop at h
        rw [hrn, hf] at h
        simp [search_status, check_metadata_status] at h

theorem run_ops_invariant :
    ∀ (ops : List DbOp) (md : ClusterMetadata) (c : Nat) (acc : List Name)
      (md1 : ClusterMetadata),
      DbInv md c →
      (∀ m, m ∈ db_list md ↔ m ∈ acc) →
      run_ops ops md c = some md1 →
      ∀ m, m ∈ db_list md1 ↔ m ∈ expected_names ops acc := by
  intro ops
  induction ops with
  | nil =>
    intro md c acc md1 _ hacc h m
    simp only [run_ops, Option.some.injEq] at h
    rw [← h]
    simpa [expected_names] using hacc m
  | cons op rest ih =>
    intro md c acc md1 hinv hacc h
    obtain ⟨hisns, hisdb, hiuniq, hikey⟩ := hinv
    cases op with
    | create n =>
      simp only [run_ops] at h
      cases hc : db_create md n c with
      | error e => rw [hc] at h; simp at h
      | ok res =>
        obtain ⟨md2, ev⟩ := res
        rw [hc] at h
        dsimp only at h
        obtain ⟨hnil, hmd2⟩ := db_create_ok_inv md n c md2 ev hc hisns hisdb hikey
        subst hmd2
        refine ih ⟨md.rdb_namespaces,
            md.databases ++ [(c, ⟨false, ⟨⟨0, n⟩⟩⟩)]⟩ (c + 1) (n :: acc) md1
          ⟨hisns, keysSorted_append_single _ c _ hisdb hikey, ?_, ?_⟩ ?_ h
        · intro nm
          show (List.filter (db_name_pred nm)
            (md.databases ++ [(c, ⟨false, ⟨⟨0, n⟩⟩⟩)])).length ≤ 1
          rw [List.filter_append]
          by_cases hnm : db_name_pred nm (c, ⟨false, ⟨⟨0, n⟩⟩⟩) = true
          · have he : nm = n := by
              simp [db_name_pred] at hnm
              exact hnm.symm
            subst he
            rw [hnil]
            simp [List.filter_cons, hnm]
          · simp only [Bool.not_eq_true] at hnm
            rw [List.filter_cons, hnm]
            simp only [Bool.false_eq_true, if_false, List.filter_nil,
              List.append_nil]
            exact hiuniq nm
        · intro p hp
          rcases List.mem_append.mp hp with hp | hp
          · exact Nat.lt_succ_of_lt (hikey p hp)
          · rcases List.mem_singleton.mp hp with rfl
            exact Nat.lt_succ_self c
        · intro m
          rw [db_list_after_create md n c m, List.mem_cons]
          rw [hacc m]
          tauto
    | drop n =>
      simp only [run_ops] at h
      cases hc : db_drop md n with
      | error e => rw [hc] at h; simp at h
      | ok res =>
        obtain ⟨md2, ev⟩ := res
        rw [hc] at h
        dsimp only at h
        obtain ⟨did, e, hone, hmd2⟩ := db_drop_ok_inv md n md2 ev hc hisns hisdb
        subst hmd2
        refine ih ⟨md.rdb_namespaces.map fun p =>
              (p.1, if namespace_pred none (some did) p then p.2.mark_deleted
                    else p.2),
            md.databases.map fun p =>
              (p.1, if p.1 == did then p.2.mark_deleted else p.2)⟩
          c (acc.filter fun m => m != n) md1
          ⟨keysSorted_map _ _ hisns, keysSorted_map _ _ hisdb, ?_, ?_⟩ ?_ h
        · intro nm
          refine Nat.le_trans (length_filter_map_le (db_name_pred nm) _
            (db_name_pred nm) ?_ md.databases) (hiuniq nm)
          intro p hpred
          by_cases hk : (p.1 == did) = true
          · rw [if_pos hk] at hpred
            unfold db_name_pred at hpred
            simp [Deletable.mark_deleted] at hpred
          · simp only [Bool.not_eq_true] at hk
            rw [hk] at hpred
            simpa using hpred
        · intro p hp
          rcases List.mem_map.mp hp with ⟨q, hq, hqp⟩
          rw [← hqp]
          exact hikey q hq
        · intro m
          rw [db_list_after_drop md _ n did e hisdb hone m, hacc m,
            List.mem_filter]
          simp [bne]

theorem namespace_pred_name_elim (n : Name) (dbId : Uuid)
    (p : Uuid × Deletable TableEntry)
    (h : namespace_pred (some n) (some dbId) p = true) :
    p.2.deleted = false ∧ p.2.value.name.value = n ∧
      p.2.value.database.value = dbId := by
  unfold namespace_pred at h
  simp only [Option.all_some, Bool.and_eq_true, Bool.not_eq_true',
    beq_iff_eq] at h
  exact ⟨h.1.1, h.1.2, h.2⟩

theorem resolve_names_ok (md : ClusterMetadata) (dbId : Uuid) (dbName : Name) :
    ∀ names : List Name,
      (∀ n ∈ names, table_resolvable md dbId n = true) →
      (∀ n ∈ names,
        (md.rdb_namespaces.filter
          (namespace_pred (some n) (some dbId))).length ≤ 1) →
      ∃ m, resolve_names md dbId dbName names = .ok m ∧
        (∀ nm, (∃ tid, (tid, nm) ∈ m) ↔ nm ∈ names) ∧
        (∀ tid nm, (tid, nm) ∈ m → ∃ e, (tid, e) ∈ md.rdb_namespaces ∧
          e.deleted = false ∧ e.value.database.value = dbId ∧
          e.value.name.value = nm) := by
  intro names
  induction names with
  | nil =>
    intro _ _
    refine ⟨[], rfl, ?_, ?_⟩
    · intro nm; simp
    · intro tid nm h; simp at h
  | cons n rest ih =>
    intro hres huniq
    have hn := hres n (List.mem_cons_self _ _)
    cases hf : md.rdb_namespaces.filter (namespace_pred (some n) (some dbId)) with
    | nil =>
      unfold table_resolvable at hn
      rw [hf] at hn
      simp at hn
    | cons q t =>
      cases t with
      | cons q2 t2 =>
        have := huniq n (List.mem_cons_self _ _)
        rw [hf] at this
        simp at this
      | nil =>
        obtain ⟨tid, te⟩ := q
        have hq : (tid, te) ∈ md.rdb_namespaces ∧
            namespace_pred (some n) (some dbId) (tid, te) = true := by
          have hmem : (tid, te) ∈ md.rdb_namespaces.filter
              (namespace_pred (some n) (some dbId)) := by
            rw [hf]
            exact List.mem_cons_self _ _
          exact ⟨(List.mem_filter.mp hmem).1, (List.mem_filter.mp hmem).2⟩
        obtain ⟨hdel, hnm, hdb⟩ := namespace_pred_name_elim n dbId (tid, te) hq.2
        obtain ⟨m', hm', hiff, hcorr⟩ := ih
          (fun x hx => hres x (List.mem_cons_of_mem _ hx))
          (fun x hx => huniq x (List.mem_cons_of_mem _ hx))
        refine ⟨(tid, te.value.name.value) :: m', ?_, ?_, ?_⟩
        · unfold resolve_names
          rw [hf]
          simp only [search_status, check_metadata_status]
          rw [hm']
        · intro nm
          constructor
          · intro ⟨tid2, h2⟩
            rcases List.mem_cons.mp h2 with h2 | h2
            · simp only [Prod.mk.injEq] at h2
              rw [List.mem_cons, h2.2, hnm]
              exact Or.inl rfl
            · exact List.mem_cons_of_mem _ ((hiff nm).mp ⟨tid2, h2⟩)
          · intro h2
            rcases List.mem_cons.mp h2 with h2 | h2
            · refine ⟨tid, ?_⟩
              rw [h2, ← hnm]
              exact List.mem_cons_self _ _
            · obtain ⟨tid2, h3⟩ := (hiff nm).mpr h2
              exact ⟨tid2, List.mem_cons_of_mem _ h3⟩
        · intro tid2 nm h2
          rcases List.mem_cons.mp h2 with h2 | h2
          · simp only [Prod.mk.injEq] at h2
            refine ⟨te, ?_, hdel, hdb, h2.2.symm⟩
            rw [h2.1]
            exact hq.1
          · exact hcorr tid2 nm h2

theorem resolve_names_missing (md : ClusterMetadata) (dbId : Uuid)
    (dbName : Name) :
    ∀ (pre : List Name) (n : Name) (post : List Name),
      (∀ n2 ∈ pre, table_resolvable md dbId n2 = true) →
      (∀ n2 ∈ pre,
        (md.rdb_namespaces.filter
          (namespace_pred (some n2) (some dbId))).length ≤ 1) →
      table_resolvable md dbId n = false →
      resolve_names md dbId dbName (pre ++ n :: post) =
        .error (.notFound "Table" (dbName ++ "." ++ n)) := by
  intro pre
  induction pre with
  | nil =>
    intro n post _ _ hmiss
    have hf : md.rdb_namespaces.filter (namespace_pred (some n) (some dbId))
        = [] := by
      cases hfe : md.rdb_namespaces.filter (namespace_pred (some n) (some dbId)) with
      | nil => rfl
      | cons q t =>
        unfold table_resolvable at hmiss
        rw [hfe] at hmiss
        simp at hmiss
    simp only [List.nil_append]
    unfold resolve_names
    rw [hf]
    simp [search_status, check_metadata_status]
  | cons p pre' ih =>
    intro n post hres huniq hmiss
    have hp := hres p (List.mem_cons_self _ _)
    cases hf : md.rdb_namespaces.filter (namespace_pred (some p) (some dbId)) with
    | nil =>
      unfold table_resolvable at hp
      rw [hf] at hp
      simp at hp
    | cons q t =>
      cases t with
      | cons q2 t2 =>
        have := huniq p (List.mem_cons_self _ _)
        rw [hf] at this
        simp at this
      | nil =>
        obtain ⟨tid, te⟩ := q
        have hrec := ih n post
          (fun x hx => hres x (List.mem_cons_of_mem _ hx))
          (fun x hx => huniq x (List.mem_cons_of_mem _ hx)) hmiss
        simp only [List.cons_append]
        unfold resolve_names
        rw [hf]
        simp only [search_status, check_metadata_status]
        rw [hrec]

/-! ## Claim theorems -/

/-- C1: `wait_for_metadata_to_propagate` implements the subsumption wait:
it returns only once the local namespaces copy and the local databases
copy each subsume the corresponding sub-lattice of the target snapshot,
where subsumption is decided by `is_joined` — joining the target into a
copy of the local value and testing equality with the original — and the
root check is decomposed into the two independent sub-lattice checks, both
of which must have held before the function returns. -/
theorem wait_propagate_subsumption (md : ClusterMetadata)
    (nsTrace : List NsMap) (dbTrace : List DbMap) (n : NsMap) (d : DbMap)
    (h : wait_for_metadata_to_propagate md nsTrace dbTrace = some (n, d)) :
    is_joined nsMapJoin n md.rdb_namespaces = true ∧
    is_joined dbMapJoin d md.databases = true ∧
    nsMapJoin n md.rdb_namespaces = n ∧
    dbMapJoin d md.databases = d ∧
    n ∈ nsTrace ∧ d ∈ dbTrace := by
  unfold wait_for_metadata_to_propagate at h
  cases hn : run_until_satisfied
      (fun m => is_joined nsMapJoin m md.rdb_namespaces) nsTrace with
  | none => rw [hn] at h; exact absurd h (by simp)
  | some n' =>
    rw [hn] at h
    cases hd : run_until_satisfied
        (fun m => is_joined dbMapJoin m md.databases) dbTrace with
    | none => rw [hd] at h; exact absurd h (by simp)
    | some d' =>
      rw [hd] at h
      simp only [Option.some.injEq, Prod.mk.injEq] at h
      obtain ⟨hn', hd'⟩ := h
      have hnn : run_until_satisfied
          (fun m => is_joined nsMapJoin m md.rdb_namespaces) nsTrace = some n := by
        rw [hn, hn']
      have hdd : run_until_satisfied
          (fun m => is_joined dbMapJoin m md.databases) dbTrace = some d := by
        rw [hd, hd']
      have Hn := run_until_satisfied_sound _ nsTrace n hnn
      have Hd := run_until_satisfied_sound _ dbTrace d hdd
      have e1 : nsMapJoin n md.rdb_namespaces = n := by
        have := Hn.1
        simpa [is_joined] using this
      have e2 : dbMapJoin d md.databases = d := by
        have := Hd.1
        simpa [is_joined] using this
      exact ⟨Hn.1, Hd.1, e1, e2, Hn.2, Hd.2⟩

/-- Witness for C1 at a concrete input: the empty local mirrors subsume
the empty target snapshot on the first check of each trace. -/
theorem wait_propagate_subsumption_witness :
    is_joined nsMapJoin [] (ClusterMetadata.mk [] []).rdb_namespaces = true ∧
    is_joined dbMapJoin [] (ClusterMetadata.mk [] []).databases = true ∧
    nsMapJoin [] (ClusterMetadata.mk [] []).rdb_namespaces = [] ∧
    dbMapJoin [] (ClusterMetadata.mk [] []).databases = [] ∧
    ([] : NsMap) ∈ [([] : NsMap)] ∧ ([] : DbMap) ∈ [([] : DbMap)] :=
  wait_propagate_subsumption ⟨[], []⟩ [[]] [[]] [] [] (by decide)

/-- C2: `db_create(name)` fails with AlreadyExists exactly when some
non-deleted database entry already carries the name (under the documented
uniqueness invariant); on success it appends exactly one new entry with
the freshly generated uuid, leaving every existing entry unchanged, and
the store after the join is the returned snapshot, so a second
`db_create` of the same name afterwards fails with AlreadyExists. -/
theorem db_create_spec (md : ClusterMetadata) (name : Name) (fresh fresh2 : Uuid)
    (hname : name ≠ "rethinkdb")
    (huniq : (md.databases.filter (db_name_pred name)).length ≤ 1)
    (hsns : KeysSorted md.rdb_namespaces)
    (hsdb : KeysSorted md.databases)
    (hfresh : ∀ p ∈ md.databases, p.1 < fresh) :
    ((∃ p ∈ md.databases, db_name_pred name p = true) ↔
      db_create md name fresh = .error (.alreadyExists "Database" name)) ∧
    (md.databases.filter (db_name_pred name) = [] →
      db_create md name fresh =
        .ok (⟨md.rdb_namespaces,
              md.databases ++ [(fresh, ⟨false, ⟨⟨0, name⟩⟩⟩)]⟩,
             [Event.joinStore, Event.waitPropagate]) ∧
      ∀ st ev, db_create md name fresh = .ok (st, ev) →
        db_create st name fresh2 = .error (.alreadyExists "Database" name)) := by
  have hname' : (name == "rethinkdb") = false := beq_eq_false_iff_ne.mpr hname
  constructor
  · constructor
    · intro ⟨p, hp, hpred⟩
      cases hf : md.databases.filter (db_name_pred name) with
      | nil =>
        have : p ∈ md.databases.filter (db_name_pred name) :=
          List.mem_filter.mpr ⟨hp, hpred⟩
        rw [hf] at this
        exact absurd this (List.not_mem_nil p)
      | cons q t =>
        cases t with
        | nil =>
          exact db_create_already_exists md name fresh q.1 q.2 hname' (by rw [hf])
        | cons q2 t2 =>
          rw [hf] at huniq
          simp at huniq
    · intro herr
      cases hf : md.databases.filter (db_name_pred name) with
      | nil =>
        have := db_create_ok md name fresh hname' hf hsns hsdb hfresh
        rw [this] at herr
        exact absurd herr (by simp)
      | cons q t =>
        have hq : q ∈ md.databases.filter (db_name_pred name) := by
          rw [hf]
          exact List.mem_cons_self _ _
        have := List.mem_filter.mp hq
        exact ⟨q, this.1, this.2⟩
  · intro hnil
    have hok := db_create_ok md name fresh hname' hnil hsns hsdb hfresh
    refine ⟨hok, ?_⟩
    intro st ev hst
    rw [hok] at hst
    simp only [Except.ok.injEq, Prod.mk.injEq] at hst
    have hstd : st.databases
        = md.databases ++ [(fresh, ⟨false, ⟨⟨0, name⟩⟩⟩)] := by
      rw [← hst.1]
    have hfilter : st.databases.filter (db_name_pred name)
        = [(fresh, ⟨false, ⟨⟨0, name⟩⟩⟩)] := by
      rw [hstd, List.filter_append, hnil]
      simp [db_name_pred]
    exact db_create_already_exists st name fresh2 fresh _ hname' hfilter

/-- Witness for C2 at a concrete input: creating database "a" in an empty
store succeeds and appends one entry; creating "a" again fails with
AlreadyExists. -/
theorem db_create_spec_witness :
    db_create ⟨[], []⟩ "a" 0 =
      .ok (⟨[], [(0, ⟨false, ⟨⟨0, "a"⟩⟩⟩)]⟩,
           [Event.joinStore, Event.waitPropagate]) ∧
    db_create ⟨[], [(0, ⟨false, ⟨⟨0, "a"⟩⟩⟩)]⟩ "a" 1 =
      .error (.alreadyExists "Database" "a") := by
  have H := db_create_spec ⟨[], []⟩ "a" 0 1 (by decide) (by decide)
    (by simp [KeysSorted]) (by simp [KeysSorted]) (by simp)
  have H2 := H.2 rfl
  exact ⟨H2.1, H2.2 _ _ H2.1⟩

/-- C3: `db_drop(name)` fails with NotFound exactly when no non-deleted
database entry has the name (under the uniqueness invariant); on success
it soft-deletes that entry in place (no entry is removed) and marks
deleted exactly the non-deleted tables whose database id is the dropped
id, leaving every other table entry unchanged. -/
theorem db_drop_spec (md : ClusterMetadata) (name : Name)
    (hname : name ≠ "rethinkdb")
    (huniq : (md.databases.filter (db_name_pred name)).length ≤ 1)
    (hsns : KeysSorted md.rdb_namespaces)
    (hsdb : KeysSorted md.databases) :
    ((md.databases.filter (db_name_pred name) = []) ↔
      db_drop md name = .error (.notFound "Database" name)) ∧
    (∀ did e, md.databases.filter (db_name_pred name) = [(did, e)] →
      db_drop md name =
        .ok (⟨md.rdb_namespaces.map fun p =>
                (p.1, if namespace_pred none (some did) p then p.2.mark_deleted
                      else p.2),
              md.databases.map fun p =>
                (p.1, if p.1 == did then p.2.mark_deleted else p.2)⟩,
             [Event.joinStore, Event.waitPropagate]) ∧
      (∀ p ∈ md.rdb_namespaces, namespace_pred none (some did) p = true →
        (p.1, p.2.mark_deleted) ∈ md.rdb_namespaces.map fun p =>
          (p.1, if namespace_pred none (some did) p then p.2.mark_deleted
                else p.2)) ∧
      (∀ p ∈ md.rdb_namespaces, namespace_pred none (some did) p = false →
        (p.1, p.2) ∈ md.rdb_namespaces.map fun p =>
          (p.1, if namespace_pred none (some did) p then p.2.mark_deleted
                else p.2))) := by
  have hname' : (name == "rethinkdb") = false := beq_eq_false_iff_ne.mpr hname
  constructor
  · constructor
    · intro hnil
      exact db_drop_not_found md name hname' hnil
    · intro herr
      cases hf : md.databases.filter (db_name_pred name) with
      | nil => rfl
      | cons q t =>
        cases t with
        | nil =>
          have := db_drop_ok md name q.1 q.2 hname' (by rw [hf]) hsns hsdb
          rw [this] at herr
          exact absurd herr (by simp)
        | cons q2 t2 =>
          rw [hf] at huniq
          simp at huniq
  · intro did e hone
    refine ⟨db_drop_ok md name did e hname' hone hsns hsdb, ?_, ?_⟩
    · intro p hp hpred
      refine List.mem_map.mpr ⟨p, hp, ?_⟩
      rw [hpred]
      simp
    · intro p hp hpred
      refine List.mem_map.mpr ⟨p, hp, ?_⟩
      rw [hpred]
      simp

/-- Witness for C3 at a concrete input: dropping database "a" (id 0)
soft-deletes its entry and cascades to its table (id 1) while leaving the
table of database 5 (id 2) unchanged. -/
theorem db_drop_spec_witness :
    db_drop
      ⟨[(1, ⟨false, ⟨⟨0, "t1"⟩, ⟨0, 0⟩, ⟨0, "id"⟩, ⟨0, ⟨1, 7⟩⟩⟩⟩),
        (2, ⟨false, ⟨⟨0, "t2"⟩, ⟨0, 5⟩, ⟨0, "id"⟩, ⟨0, ⟨1, 8⟩⟩⟩⟩)],
       [(0, ⟨false, ⟨⟨0, "a"⟩⟩⟩)]⟩ "a" =
      .ok (⟨[(1, ⟨true, ⟨⟨0, "t1"⟩, ⟨0, 0⟩, ⟨0, "id"⟩, ⟨0, ⟨1, 7⟩⟩⟩⟩),
             (2, ⟨false, ⟨⟨0, "t2"⟩, ⟨0, 5⟩, ⟨0, "id"⟩, ⟨0, ⟨1, 8⟩⟩⟩⟩)],
            [(0, ⟨true, ⟨⟨0, "a"⟩⟩⟩)]⟩,
           [Event.joinStore, Event.waitPropagate]) := by
  have H := db_drop_spec
    ⟨[(1, ⟨false, ⟨⟨0, "t1"⟩, ⟨0, 0⟩, ⟨0, "id"⟩, ⟨0, ⟨1, 7⟩⟩⟩⟩),
      (2, ⟨false, ⟨⟨0, "t2"⟩, ⟨0, 5⟩, ⟨0, "id"⟩, ⟨0, ⟨1, 8⟩⟩⟩⟩)],
     [(0, ⟨false, ⟨⟨0, "a"⟩⟩⟩)]⟩ "a" (by decide) (by decide)
    (by simp [KeysSorted]) (by simp [KeysSorted])
  have H2 := (H.2 0 ⟨false, ⟨⟨0, "a"⟩⟩⟩ (by decide)).1
  rw [H2]
  rfl

/-- C4: `db_list` returns exactly the names of the non-deleted database
entries of the current snapshot; and for every sequence of successful
db_create/db_drop operations starting from an empty store, the listing
afterwards contains exactly the created-and-not-dropped names. -/
theorem db_list_spec (ops : List DbOp) (mdF : ClusterMetadata)
    (h : run_ops ops ⟨[], []⟩ 0 = some mdF) :
    (∀ (md : ClusterMetadata) (n : Name),
      n ∈ db_list md ↔ ∃ p ∈ md.databases,
        p.2.deleted = false ∧ p.2.value.name.value = n) ∧
    (∀ n, n ∈ db_list mdF ↔ n ∈ expected_names ops []) := by
  refine ⟨db_list_mem, ?_⟩
  refine run_ops_invariant ops ⟨[], []⟩ 0 [] mdF
    ⟨?_, ?_, ?_, ?_⟩ ?_ h
  · exact List.Pairwise.nil
  · exact List.Pairwise.nil
  · intro n; simp
  · intro p hp; simp at hp
  · intro m; simp [db_list]

/-- Witness for C4 at a concrete input: after create "a", create "b",
drop "a", the listing contains "b" and not "a". -/
theorem db_list_spec_witness :
    ("b" ∈ db_list ⟨[], [(0, ⟨true, ⟨⟨0, "a"⟩⟩⟩), (1, ⟨false, ⟨⟨0, "b"⟩⟩⟩)]⟩ ↔
      "b" ∈ expected_names [DbOp.create "a", DbOp.create "b", DbOp.drop "a"] []) ∧
    ("a" ∈ db_list ⟨[], [(0, ⟨true, ⟨⟨0, "a"⟩⟩⟩), (1, ⟨false, ⟨⟨0, "b"⟩⟩⟩)]⟩ ↔
      "a" ∈ expected_names [DbOp.create "a", DbOp.create "b", DbOp.drop "a"] []) := by
  have H := db_list_spec [DbOp.create "a", DbOp.create "b", DbOp.drop "a"]
    ⟨[], [(0, ⟨true, ⟨⟨0, "a"⟩⟩⟩), (1, ⟨false, ⟨⟨0, "b"⟩⟩⟩)]⟩ (by decide)
  exact ⟨H.2 "b", H.2 "a"⟩

/-- C8 (amended): `get_table_ids_for_query` with an empty requested set
returns the id-to-name map of all non-deleted tables of the database;
with a non-empty set it returns the map for exactly the requested names
when all of them resolve, and otherwise fails with NotFound naming the
first missing requested name in the iteration order of the requested set
(lexicographic name order, since a `std::set` of names iterates sorted) —
deterministic, so repeated failures of the same request report the same
table. -/
theorem get_table_ids_spec (md : ClusterMetadata) (dbId : Uuid)
    (dbName : Name) (names : List Name)
    (hdb : dbName ≠ "rethinkdb")
    (huniq : ∀ n ∈ names,
      (md.rdb_namespaces.filter
        (namespace_pred (some n) (some dbId))).length ≤ 1) :
    (names = [] →
      get_table_ids_for_query md dbId dbName names =
        .ok (md.rdb_namespaces.filterMap fun p =>
          if namespace_pred none (some dbId) p
          then some (p.1, p.2.value.name.value) else none) ∧
      ∀ tid nm,
        ((tid, nm) ∈ md.rdb_namespaces.filterMap fun p =>
          if namespace_pred none (some dbId) p
          then some (p.1, p.2.value.name.value) else none) ↔
        ∃ e, (tid, e) ∈ md.rdb_namespaces ∧ e.deleted = false ∧
          e.value.database.value = dbId ∧ e.value.name.value = nm) ∧
    (names ≠ [] → (∀ n ∈ names, table_resolvable md dbId n = true) →
      ∃ m, get_table_ids_for_query md dbId dbName names = .ok m ∧
        (∀ nm, (∃ tid, (tid, nm) ∈ m) ↔ nm ∈ names) ∧
        (∀ tid nm, (tid, nm) ∈ m → ∃ e, (tid, e) ∈ md.rdb_namespaces ∧
          e.deleted = false ∧ e.value.database.value = dbId ∧
          e.value.name.value = nm)) ∧
    (∀ pre n post, names = pre ++ n :: post →
      (∀ n2 ∈ pre, table_resolvable md dbId n2 = true) →
      table_resolvable md dbId n = false →
      get_table_ids_for_query md dbId dbName names =
        .error (.notFound "Table" (dbName ++ "." ++ n))) := by
  have hdb' : (dbName == "rethinkdb") = false := beq_eq_false_iff_ne.mpr hdb
  refine ⟨?_, ?_, ?_⟩
  · intro hempty
    subst hempty
    constructor
    · unfold get_table_ids_for_query
      rw [hdb']
      simp
    · intro tid nm
      rw [List.mem_filterMap]
      constructor
      · intro ⟨p, hp, hv⟩
        by_cases hpred : namespace_pred none (some dbId) p = true
        · rw [if_pos hpred] at hv
          simp only [Option.some.injEq, Prod.mk.injEq] at hv
          unfold namespace_pred at hpred
          simp only [Option.all_some, Option.all_none, Bool.and_eq_true,
            Bool.not_eq_true', beq_iff_eq] at hpred
          refine ⟨p.2, ?_, hpred.1.1, hpred.2, hv.2⟩
          rw [← hv.1]
          exact hp
        · rw [if_neg hpred] at hv
          exact absurd hv (by simp)
      · intro ⟨e, he, hdel, hdbid, hnm⟩
        refine ⟨(tid, e), he, ?_⟩
        have hpred : namespace_pred none (some dbId) (tid, e) = true := by
          unfold namespace_pred
          simp only [Option.all_some, Option.all_none, Bool.and_eq_true,
            Bool.not_eq_true', beq_iff_eq]
          exact ⟨⟨hdel, trivial⟩, hdbid⟩
        rw [if_pos hpred, hnm]
  · intro hne hres
    obtain ⟨m, hm, hiff, hcorr⟩ := resolve_names_ok md dbId dbName names hres huniq
    refine ⟨m, ?_, hiff, hcorr⟩
    unfold get_table_ids_for_query
    rw [hdb']
    have : names.isEmpty = false := by
      cases names with
      | nil => exact absurd rfl hne
      | cons a t => rfl
    rw [this]
    simpa using hm
  · intro pre n post hsplit hpres hmiss
    subst hsplit
    have hm := resolve_names_missing md dbId dbName pre n post hpres
      (fun x hx => huniq x (List.mem_append_left _ hx)) hmiss
    unfold get_table_ids_for_query
    rw [hdb']
    have : (pre ++ n :: post).isEmpty = false := by
      cases pre with
      | nil => rfl
      | cons a t => rfl
    rw [this]
    simpa using hm

/-- Witness for C8 (amended) at a concrete input: of the requested names
"a", "b", "c" only "a" exists, and the error names "b", the first missing
name in set-iteration order. -/
theorem get_table_ids_spec_witness :
    get_table_ids_for_query
      ⟨[(1, ⟨false, ⟨⟨0, "a"⟩, ⟨0, 0⟩, ⟨0, "id"⟩, ⟨0, ⟨1, 7⟩⟩⟩⟩)], []⟩
      0 "d" ["a", "b", "c"] = .error (.notFound "Table" ("d" ++ "." ++ "b")) := by
  have H := get_table_ids_spec
    ⟨[(1, ⟨false, ⟨⟨0, "a"⟩, ⟨0, 0⟩, ⟨0, "id"⟩, ⟨0, ⟨1, 7⟩⟩⟩⟩)], []⟩
    0 "d" ["a", "b", "c"] (by decide)
    (fun n _ => List.length_filter_le _ _)
  exact H.2.2 ["a"] "b" ["c"] rfl (by decide) (by decide)

/-- C8 counterexample to the claim as stated: requesting tables "a" and
"b" of database 0, both missing (their tombstoned entries have ids 10 and
2 respectively), the source reports "a" — the first missing name in
requested-name order — whereas the first missing table in id-array order
would be "b" (id 2 < id 10). -/
theorem get_table_ids_first_missing_cex :
    get_table_ids_for_query
      ⟨[(2, ⟨true, ⟨⟨0, "b"⟩, ⟨0, 0⟩, ⟨0, "id"⟩, ⟨0, ⟨1, 7⟩⟩⟩⟩),
        (10, ⟨true, ⟨⟨0, "a"⟩, ⟨0, 0⟩, ⟨0, "id"⟩, ⟨0, ⟨1, 8⟩⟩⟩⟩)], []⟩
      0 "d" ["a", "b"] = .error (.notFound "Table" ("d" ++ "." ++ "a")) ∧
    first_missing_by_id_order
      ⟨[(2, ⟨true, ⟨⟨0, "b"⟩, ⟨0, 0⟩, ⟨0, "id"⟩, ⟨0, ⟨1, 7⟩⟩⟩⟩),
        (10, ⟨true, ⟨⟨0, "a"⟩, ⟨0, 0⟩, ⟨0, "id"⟩, ⟨0, ⟨1, 8⟩⟩⟩⟩)], []⟩
      0 ["a", "b"] = some "b" ∧
    ("a" : String) ≠ "b" := by
  refine ⟨by rfl, by rfl, by decide⟩

/-- C5: `wait_ready` returns `IMMEDIATE` exactly when the readiness check
is satisfied on the very first observation (before ever suspending on the
change stream), `WAITED` otherwise; and whenever it returns, some observed
status was ready-or-deleted. -/
theorem wait_ready_immediate_iff (t : Readiness) (d : Bool) (s0 : Status)
    (tr : DirTrace) (w : WaitedT) (d' : Bool)
    (h : wait_ready t d (s0 :: tr) = some (w, d')) :
    ((w = WaitedT.immediate) ↔ (do_check d s0 t).2 = true) ∧
    ∃ s ∈ s0 :: tr, status_satisfies t s := by
  refine ⟨?_, wait_ready_sat t d (s0 :: tr) w d' h⟩
  by_cases hc : (do_check d s0 t).2 = true
  · have hfrom : wait_ready_from t d 0 (s0 :: tr) = some (1, (do_check d s0 t).1) := by
      simp [wait_ready_from, hc]
    unfold wait_ready at h
    rw [hfrom] at h
    simp only [Option.map_some', Option.some.injEq, Prod.mk.injEq] at h
    have hw : w = WaitedT.immediate := by
      rw [← h.1]
      norm_num
    simp [hw, hc]
  · simp only [Bool.not_eq_true] at hc
    have hfrom : wait_ready_from t d 0 (s0 :: tr)
        = wait_ready_from t (do_check d s0 t).1 1 tr := by
      simp [wait_ready_from, hc]
    unfold wait_ready at h
    rw [hfrom] at h
    cases hr : wait_ready_from t (do_check d s0 t).1 1 tr with
    | none => rw [hr] at h; exact absurd h (by simp)
    | some p =>
      obtain ⟨m, dd⟩ := p
      rw [hr] at h
      simp only [Option.map_some', Option.some.injEq, Prod.mk.injEq] at h
      have hm : 1 < m := wait_ready_from_pos t tr (do_check d s0 t).1 1 m dd hr
      have hw : w = WaitedT.waited := by
        rw [← h.1]
        simp [hm]
      rw [hw, hc]
      simp

/-- Witness for C5 at a concrete input: target `writes`, first observation
`unready` (check fails), second observation `writes` (check passes), so
the waiter returns `WAITED`. -/
theorem wait_ready_immediate_iff_witness :
    ((WaitedT.waited = WaitedT.immediate) ↔
      (do_check false (some Readiness.unready) Readiness.writes).2 = true) ∧
    ∃ s ∈ [some Readiness.unready, some Readiness.writes],
      status_satisfies Readiness.writes s :=
  wait_ready_immediate_iff Readiness.writes false (some Readiness.unready)
    [some Readiness.writes] WaitedT.waited false (by decide)

/-- C6: when the status source reports no readiness ("no such table"), the
waiter's check is satisfied and the deleted flag is recorded: both
`check_ready` and a `wait_ready` whose first observation is "no such
table" succeed immediately for every target level, leaving the waiter in
the Deleted state. -/
theorem deleted_table_always_ready (t : Readiness) (d : Bool) (tr : DirTrace) :
    do_check d none t = (true, true) ∧
    check_ready d none t = (true, true) ∧
    wait_ready t d (none :: tr) = some (WaitedT.immediate, true) := by
  refine ⟨rfl, rfl, ?_⟩
  simp [wait_ready, wait_ready_from, do_check]

/-- C7: the multi-table wait protocol of `table_wait`.  Whenever the loop
declares success at round `i`: every requested table was waited on
individually in that round, each such wait returning only at a
ready-or-deleted observation; the additional synchronous re-check pass
happens exactly when some individual wait returned `WAITED` and more than
one table is waited on, and success then requires every re-check to have
found its table ready or deleted; and every earlier round ended with a
performed re-check pass that found some table not ready, restarting the
loop from scratch. -/
theorem table_wait_protocol (t : Readiness) (nTables : Nat) :
    ∀ (rounds : List (List DirTrace × List Status)) (flags : List Bool)
      (i : Nat) (f : List Bool),
      table_wait_loop t nTables flags rounds = some (i, f) →
      (∃ (traces : List DirTrace) (rechecks : List Status)
         (flagsI : List Bool) (results : List (WaitedT × Bool)),
        rounds[i]? = some (traces, rechecks) ∧
        round_waits t (flagsI.zip traces) = some results ∧
        (∀ p ∈ flagsI.zip traces, ∃ s ∈ p.2, status_satisfies t s) ∧
        ((any_waited results && decide (1 < nTables)) = true →
          recheck_pass t ((results.map Prod.snd).zip rechecks) = (true, f) ∧
          ∀ p ∈ (results.map Prod.snd).zip rechecks, status_satisfies t p.2) ∧
        ((any_waited results && decide (1 < nTables)) = false →
          f = results.map Prod.snd)) ∧
      (∀ j, j < i →
        ∃ (tracesJ : List DirTrace) (rechecksJ : List Status)
          (flagsJ : List Bool) (resultsJ : List (WaitedT × Bool)),
          rounds[j]? = some (tracesJ, rechecksJ) ∧
          round_waits t (flagsJ.zip tracesJ) = some resultsJ ∧
          (any_waited resultsJ && decide (1 < nTables)) = true ∧
          (recheck_pass t ((resultsJ.map Prod.snd).zip rechecksJ)).1 = false) := by
  intro rounds
  induction rounds with
  | nil =>
    intro flags i f h
    simp [table_wait_loop] at h
  | cons round rest ih =>
    intro flags i f h
    obtain ⟨traces, rechecks⟩ := round
    simp only [table_wait_loop] at h
    split at h
    · exact absurd h (by simp)
    · rename_i results hr
      split at h
      · rename_i hc
        split at h
        · rename_i flags2 hrc
          simp only [Option.some.injEq, Prod.mk.injEq] at h
          obtain ⟨rfl, rfl⟩ := h
          constructor
          · refine ⟨traces, rechecks, flags, results, by simp, hr,
              round_waits_sat t (flags.zip traces) results hr, ?_, ?_⟩
            · intro _
              exact ⟨hrc, recheck_pass_true t _ _ hrc⟩
            · intro hcond
              rw [hcond] at hc
              exact absurd hc (by simp)
          · intro j hj
            exact absurd hj (Nat.not_lt_zero j)
        · rename_i flags2 hrc
          split at h
          · exact absurd h (by simp)
          · rename_i i' f' hrec
            simp only [Option.some.injEq, Prod.mk.injEq] at h
            obtain ⟨rfl, rfl⟩ := h
            have IH := ih flags2 i' f' hrec
            constructor
            · rcases IH.1 with ⟨trI, rcI, flI, resI, h1, h2, h3, h4, h5⟩
              exact ⟨trI, rcI, flI, resI, by simpa using h1, h2, h3, h4, h5⟩
            · intro j hj
              cases j with
              | zero =>
                refine ⟨traces, rechecks, flags, results, by simp, hr, hc, ?_⟩
                rw [hrc]
              | succ j' =>
                have hj' : j' < i' := Nat.lt_of_succ_lt_succ hj
                rcases IH.2 j' hj' with ⟨trJ, rcJ, flJ, resJ, g1, g2, g3, g4⟩
                exact ⟨trJ, rcJ, flJ, resJ, by simpa using g1, g2, g3, g4⟩
      · rename_i hc
        simp only [Option.some.injEq, Prod.mk.injEq] at h
        obtain ⟨rfl, rfl⟩ := h
        constructor
        · refine ⟨traces, rechecks, flags, results, by simp, hr,
            round_waits_sat t (flags.zip traces) results hr, ?_, fun _ => rfl⟩
          intro hcond
          exact absurd hcond hc
        · intro j hj
          exact absurd hj (Nat.not_lt_zero j)

/-- Witness for C7 at a concrete input: two tables waited to `writes`
readiness; the first wait suspends once and then succeeds, the second is
immediate, so a re-check pass runs and finds both tables ready, and the
loop succeeds in round 0. -/
theorem table_wait_protocol_witness :
    ∃ (traces : List DirTrace) (rechecks : List Status)
      (flagsI : List Bool) (results : List (WaitedT × Bool)),
      ([([[some Readiness.unready, some Readiness.writes],
          [some Readiness.writes]],
         [some Readiness.writes, some Readiness.writes])]
        : List (List DirTrace × List Status))[0]?
        = some (traces, rechecks) ∧
      round_waits Readiness.writes (flagsI.zip traces) = some results ∧
      (∀ p ∈ flagsI.zip traces, ∃ s ∈ p.2,
        status_satisfies Readiness.writes s) ∧
      ((any_waited results && decide (1 < 2)) = true →
        recheck_pass Readiness.writes
            ((results.map Prod.snd).zip rechecks) = (true, [false, false]) ∧
        ∀ p ∈ (results.map Prod.snd).zip rechecks,
          status_satisfies Readiness.writes p.2) ∧
      ((any_waited results && decide (1 < 2)) = false →
        [false, false] = results.map Prod.snd) :=
  (table_wait_protocol Readiness.writes 2
    [([[some Readiness.unready, some Readiness.writes],
       [some Readiness.writes]],
      [some Readiness.writes, some Readiness.writes])]
    [false, false] 0 [false, false] (by decide)).1

/-- C9: `table_reconfigure` with `dry_run = true` leaves the metadata
store completely unchanged and joins nothing, while with
`dry_run = false` it commits exactly the new replication info of the
resolved table by joining the mutated metadata; in both cases it returns
the computed configuration, and in neither case does it ever wait for
table readiness. -/
theorem table_reconfigure_spec (calcUsage : Cfg → UsageMap → UsageMap)
    (splitPoints : Uuid → Nat → ShardScheme → Except MetaError ShardScheme)
    (genConfig : Uuid → UsageMap → ConfigParams → ShardScheme →
      Except MetaError Cfg)
    (md : ClusterMetadata) (dbId : Uuid) (dbName : Name) (name : Name)
    (params : ConfigParams)
    (hdb : (dbName == "rethinkdb") = false)
    (tid : Uuid) (te : Deletable TableEntry)
    (hone : md.rdb_namespaces.filter (namespace_pred (some name) (some dbId))
      = [(tid, te)])
    (hsns : KeysSorted md.rdb_namespaces)
    (hsdb : KeysSorted md.databases)
    (scheme : ShardScheme)
    (hsplit : splitPoints tid params.num_shards
      te.value.replication_info.value.shard_scheme = .ok scheme)
    (cfg : Cfg)
    (hgen : genConfig tid
      (server_usage_over calcUsage md.rdb_namespaces (some tid)) params scheme
      = .ok cfg) :
    table_reconfigure calcUsage splitPoints genConfig md dbId dbName name
        params true = .ok (md, cfg, []) ∧
    table_reconfigure calcUsage splitPoints genConfig md dbId dbName name
        params false =
      .ok (⟨md.rdb_namespaces.map fun p =>
              (p.1, if p.1 == tid then set_replication p.2 ⟨scheme, cfg⟩
                    else p.2),
            md.databases⟩, cfg, [Event.joinStore]) ∧
    (∀ dr st c2 ev,
      table_reconfigure calcUsage splitPoints genConfig md dbId dbName name
        params dr = .ok (st, c2, ev) → Event.waitReady ∉ ev) := by
  have habs : ∀ p ∈ md.rdb_namespaces,
      nsJoinE p.2
          (if p.1 == tid then set_replication p.2 ⟨scheme, cfg⟩ else p.2)
        = (if p.1 == tid then set_replication p.2 ⟨scheme, cfg⟩ else p.2) := by
    intro p _
    by_cases h : (p.1 == tid) = true
    · simp [h, nsJoinE_set_replication]
    · simp only [Bool.not_eq_true] at h
      simp [h, nsJoinE_self]
  have hns := mjoin_map nsJoinE
    (fun p => if p.1 == tid then set_replication p.2 ⟨scheme, cfg⟩ else p.2)
    md.rdb_namespaces hsns habs
  have hdbj : dbMapJoin md.databases md.databases = md.databases :=
    mjoin_self dbJoinE md.databases hsdb (fun p _ => dbJoinE_self p.2)
  have htrue : table_reconfigure calcUsage splitPoints genConfig md dbId
      dbName name params true = .ok (md, cfg, []) := by
    unfold table_reconfigure
    rw [hdb, hone]
    simp only [search_status, check_metadata_status]
    rw [hsplit]
    dsimp only
    rw [hgen]
    dsimp only
    simp
  have hfalse : table_reconfigure calcUsage splitPoints genConfig md dbId
      dbName name params false =
      .ok (⟨md.rdb_namespaces.map fun p =>
              (p.1, if p.1 == tid then set_replication p.2 ⟨scheme, cfg⟩
                    else p.2),
            md.databases⟩, cfg, [Event.joinStore]) := by
    unfold table_reconfigure
    rw [hdb, hone]
    simp only [search_status, check_metadata_status]
    rw [hsplit]
    dsimp only
    rw [hgen]
    dsimp only
    simp only [Bool.false_eq_true, if_false, clusterJoin, nsMapJoin, dbMapJoin]
    rw [hns]
    have hdbj2 : mjoin dbJoinE md.databases md.databases = md.databases := hdbj
    rw [hdbj2]
  refine ⟨htrue, hfalse, ?_⟩
  intro dr st c2 ev hok
  cases dr with
  | true =>
    rw [htrue] at hok
    simp only [Except.ok.injEq, Prod.mk.injEq] at hok
    rw [← hok.2.2]
    simp
  | false =>
    rw [hfalse] at hok
    simp only [Except.ok.injEq, Prod.mk.injEq] at hok
    rw [← hok.2.2]
    simp

/-- Witness for C9 at a concrete input: reconfiguring table "t" (id 3)
with oracles that return shard scheme 2 and config 9; the dry run leaves
the store unchanged, the commit bumps only the replication info of id 3. -/
theorem table_reconfigure_spec_witness :
    table_reconfigure (fun _ u => u) (fun _ _ _ => .ok 2) (fun _ _ _ _ => .ok 9)
      ⟨[(3, ⟨false, ⟨⟨0, "t"⟩, ⟨0, 0⟩, ⟨0, "id"⟩, ⟨0, ⟨1, 7⟩⟩⟩⟩)], []⟩
      0 "d" "t" default_config_params true =
      .ok (⟨[(3, ⟨false, ⟨⟨0, "t"⟩, ⟨0, 0⟩, ⟨0, "id"⟩, ⟨0, ⟨1, 7⟩⟩⟩⟩)], []⟩,
           9, []) ∧
    table_reconfigure (fun _ u => u) (fun _ _ _ => .ok 2) (fun _ _ _ _ => .ok 9)
      ⟨[(3, ⟨false, ⟨⟨0, "t"⟩, ⟨0, 0⟩, ⟨0, "id"⟩, ⟨0, ⟨1, 7⟩⟩⟩⟩)], []⟩
      0 "d" "t" default_config_params false =
      .ok (⟨[(3, ⟨false, ⟨⟨0, "t"⟩, ⟨0, 0⟩, ⟨0, "id"⟩, ⟨1, ⟨2, 9⟩⟩⟩⟩)], []⟩,
           9, [Event.joinStore]) := by
  have H := table_reconfigure_spec (fun _ u => u) (fun _ _ _ => .ok 2)
    (fun _ _ _ _ => .ok 9)
    ⟨[(3, ⟨false, ⟨⟨0, "t"⟩, ⟨0, 0⟩, ⟨0, "id"⟩, ⟨0, ⟨1, 7⟩⟩⟩⟩)], []⟩
    0 "d" "t" default_config_params (by decide) 3
    ⟨false, ⟨⟨0, "t"⟩, ⟨0, 0⟩, ⟨0, "id"⟩, ⟨0, ⟨1, 7⟩⟩⟩⟩ (by decide)
    (by simp [KeysSorted]) (by simp [KeysSorted]) 2 rfl 9 rfl
  exact ⟨H.1, H.2.1⟩

/-- C10: `table_create` discards the outcome of its post-creation
readiness wait: its result is identical for every outcome of the inner
`table_wait` call (whose `Waited`/`Immediate` result and error message
are ignored), and in particular creation still reports success when that
wait reports the freshly created table as concurrently deleted. -/
theorem table_create_ignores_wait (calcUsage : Cfg → UsageMap → UsageMap)
    (genConfig : UsageMap → ConfigParams → ShardScheme → Except MetaError Cfg)
    (md : ClusterMetadata) (dbId : Uuid) (dbName : Name) (name : Name)
    (pk : String) (fresh : Uuid)
    (hdb : (dbName == "rethinkdb") = false)
    (hnone : md.rdb_namespaces.filter (namespace_pred (some name) (some dbId))
      = [])
    (cfg : Cfg)
    (hgen : genConfig (server_usage_over calcUsage md.rdb_namespaces none)
      default_config_params one_shard = .ok cfg)
    (hsns : KeysSorted md.rdb_namespaces)
    (hsdb : KeysSorted md.databases)
    (hfresh : ∀ p ∈ md.rdb_namespaces, p.1 < fresh) :
    (∀ w1 w2 : Except String Unit,
      table_create calcUsage genConfig md dbId dbName name pk fresh w1 =
      table_create calcUsage genConfig md dbId dbName name pk fresh w2) ∧
    (∀ w : Except String Unit,
      table_create calcUsage genConfig md dbId dbName name pk fresh w =
        .ok (⟨md.rdb_namespaces ++
                [(fresh, ⟨false,
                  ⟨⟨0, name⟩, ⟨0, dbId⟩, ⟨0, pk⟩, ⟨0, ⟨one_shard, cfg⟩⟩⟩⟩)],
              md.databases⟩,
             [Event.joinStore, Event.waitPropagate, Event.waitReady,
              Event.waitPropagate])) := by
  refine ⟨fun w1 w2 => rfl, ?_⟩
  intro w
  have h2 : map_insert fresh
      (⟨false, ⟨⟨0, name⟩, ⟨0, dbId⟩, ⟨0, pk⟩, ⟨0, ⟨one_shard, cfg⟩⟩⟩⟩ :
        Deletable TableEntry) md.rdb_namespaces
      = md.rdb_namespaces ++
          [(fresh, ⟨false, ⟨⟨0, name⟩, ⟨0, dbId⟩, ⟨0, pk⟩,
            ⟨0, ⟨one_shard, cfg⟩⟩⟩⟩)] :=
    map_insert_max fresh _ md.rdb_namespaces hfresh
  have h3 : nsMapJoin md.rdb_namespaces
      (md.rdb_namespaces ++
        [(fresh, ⟨false, ⟨⟨0, name⟩, ⟨0, dbId⟩, ⟨0, pk⟩,
          ⟨0, ⟨one_shard, cfg⟩⟩⟩⟩)])
      = md.rdb_namespaces ++
          [(fresh, ⟨false, ⟨⟨0, name⟩, ⟨0, dbId⟩, ⟨0, pk⟩,
            ⟨0, ⟨one_shard, cfg⟩⟩⟩⟩)] :=
    mjoin_append_fresh nsJoinE md.rdb_namespaces fresh _ hsns
      (fun p _ => nsJoinE_self p.2) hfresh
  have h4 : dbMapJoin md.databases md.databases = md.databases :=
    mjoin_self dbJoinE md.databases hsdb (fun p _ => dbJoinE_self p.2)
  unfold table_create
  rw [hdb, hnone]
  simp only [search_status, check_metadata_status]
  rw [hgen]
  simp only [Bool.false_eq_true, if_false, clusterJoin, nsMapJoin, dbMapJoin]
  rw [h2]
  simp only [nsMapJoin, dbMapJoin] at h3 h4
  rw [h3, h4]

/-- Witness for C10 at a concrete input: creating table "t" in an empty
store returns success even when the inner readiness wait reports the
table as deleted. -/
theorem table_create_ignores_wait_witness :
    table_create (fun _ u => u) (fun _ _ _ => .ok 5) ⟨[], []⟩ 0 "d" "t" "id" 0
        (.error "Table does not exist") =
      .ok (⟨[(0, ⟨false, ⟨⟨0, "t"⟩, ⟨0, 0⟩, ⟨0, "id"⟩, ⟨0, ⟨one_shard, 5⟩⟩⟩⟩)],
            []⟩,
           [Event.joinStore, Event.waitPropagate, Event.waitReady,
            Event.waitPropagate]) :=
  (table_create_ignores_wait (fun _ u => u) (fun _ _ _ => .ok 5) ⟨[], []⟩
    0 "d" "t" "id" 0 (by decide) (by decide) 5 rfl
    (by simp [KeysSorted]) (by simp [KeysSorted]) (by simp)).2
    (.error "Table does not exist")

end RethinkMeta
